import Mathlib

/-!
# A shallow embedding of the playback engine of `internal/musicbot`

The Go package keeps one `MusicBot` value that several goroutines mutate under
three mutexes.  The embedding is sequential: every function of the package is a
function on an explicit state, and everything the code obtains from outside
(the result of spawning ffmpeg, what a `Read` returns, which `select` case fires
next, the slash commands other goroutines run meanwhile) is an explicit input.
A handler that starts a goroutine returns at its `go` statement; the goroutine
is a function of its own, applied to the state it meets when it runs.

`float64` is IEEE 754 binary64: a finite value is a whole number of units of
`2 ^ -1074` with at most 53 significant bits, and every operation rounds the
exact result to the nearest value, ties to even.  The two zeros are one value
and NaN carries no payload: `==`, `+` and `*` do not tell them apart.
-/

namespace musicbot

/-! ## Values -/

set_option exponentiation.threshold 4096

namespace binary64

/-- Binary search for the place of the leading bit of `t`: given
`2 ^ acc ≤ t < 2 ^ (acc + 2 ^ j)`, the `l` with `2 ^ l ≤ t < 2 ^ (l + 1)`. -/
def log2Search (t : Nat) : Nat → Nat → Nat
  | 0, acc => acc
  | j + 1, acc =>
    if 2 ^ (acc + 2 ^ j) ≤ t then log2Search t j (acc + 2 ^ j) else log2Search t j acc

/-- The place of the leading bit of `t`, for `0 < t < 2 ^ 4096`. -/
def log2 (t : Nat) : Nat := log2Search t 12 0

/-- Rounding to nearest, ties to even.  The quotient `a / d` counts units of
`2 ^ -1074`, the smallest positive float64; the result is the nearest number
of units with at most 53 significant bits.  With `s` as below, `2 ^ s` units
is the distance between neighbouring values at the size of `a / d`.  A
quotient of `2 ^ 2098` units (the value `2 ^ 1024`) or more is beyond the
range and gives `2 ^ 2098`. -/
def roundUnits (a d : Nat) : Nat :=
  if 2 ^ 2098 ≤ a / d then 2 ^ 2098
  else
    let s := log2 (a / d) - 52
    let m := a / (d * 2 ^ s)
    let r := a % (d * 2 ^ s)
    (if d * 2 ^ s < 2 * r ∨ (2 * r = d * 2 ^ s ∧ m % 2 = 1) then m + 1 else m) * 2 ^ s

/-- The number `k` of units of `2 ^ -1074` is the size of a finite float64:
below `2 ^ 1024`, and with at most 53 significant bits. -/
def isValue (k : Nat) : Bool :=
  decide (k < 2 ^ 2098) && decide (k % 2 ^ (log2 k - 52) = 0)

end binary64

/-- Go `float64`: a finite value of `k` units of `2 ^ -1074`, an infinity or
NaN. -/
inductive Float64 where
  | finite (k : Int) (h : binary64.isValue k.natAbs = true)
  | inf (neg : Bool)
  | nan
deriving DecidableEq

namespace Float64

/-- The float64 nearest to the quotient `a / d` of units of `2 ^ -1074`, with
the sign `neg`; the infinity of that sign beyond the range. -/
def ofUnits (neg : Bool) (a d : Nat) : Float64 :=
  let k : Int := if neg then -(binary64.roundUnits a d : Int) else (binary64.roundUnits a d : Int)
  if h : binary64.isValue k.natAbs = true then finite k h else inf neg

/-- The float64 nearest to the rational `q`: the value of a Go constant `q`
used as a `float64`, and of a correctly rounded conversion of a text that
denotes `q`. -/
def fin (q : ℚ) : Float64 := ofUnits (decide (q < 0)) (q.num.natAbs * 2 ^ 1074) q.den

/-- The rational a finite value stands for. -/
def toRat : Float64 → Option ℚ
  | finite k _ => some ((k : ℚ) / 2 ^ 1074)
  | _ => none

/-- The Go constant `0`. -/
def zero : Float64 := finite 0 rfl

/-- Go `x + y` on `float64`: the exact sum, rounded. -/
def add : Float64 → Float64 → Float64
  | finite a _, finite b _ => ofUnits (decide (a + b < 0)) (a + b).natAbs 1
  | nan, _ => nan
  | _, nan => nan
  | inf a, inf b => if a = b then inf a else nan
  | inf a, finite _ _ => inf a
  | finite _ _, inf b => inf b

/-- Go `x * y` on `float64`: the exact product, a number of units of
`2 ^ -2148`, rounded. -/
def mul : Float64 → Float64 → Float64
  | finite a _, finite b _ => ofUnits (decide (a * b < 0)) (a * b).natAbs (2 ^ 1074)
  | nan, _ => nan
  | _, nan => nan
  | inf a, inf b => inf (a != b)
  | inf a, finite b _ => if b = 0 then nan else inf (a != decide (b < 0))
  | finite a _, inf b => if a = 0 then nan else inf (b != decide (a < 0))

/-- Go `x == 0` on `float64`. -/
def isZero : Float64 → Bool
  | finite k _ => decide (k = 0)
  | _ => false

end Float64

/-- `Song` of song.go. -/
structure Song where
  Name : String
  StreamURL : String
  Duration : String
  DurationSeconds : Int
  Thumbnail : String
  OriginalURL : String
deriving DecidableEq

/-- One ffmpeg process created by `exec.Command("ffmpeg", cmdArgs...)` and
started: the value formatted into its `-ss` argument, its `-i` argument, and
whether `Process.Kill` has been called on it.  The other arguments are
constants. -/
structure Proc where
  startPos : Float64
  input : String
  killed : Bool
deriving DecidableEq

/-- The part of `discordgo.VoiceConnection` the package uses: the speaking
indicator and the frames sent on `OpusSend`.  A frame is identified with the
block of samples handed to the codec. -/
structure VoiceConnection where
  speaking : Bool
  OpusSend : List (List Int)
deriving DecidableEq

/-- The anonymous struct `MusicBot.PauseState` (the mutex left out).  `Cmd` is
the handle of the stored process: its index in the table of started
processes. -/
structure PauseState where
  Paused : Bool
  Pos : Float64
  TotalPlayTime : Float64
  SkipReq : Bool
  Cmd : Option Nat
deriving DecidableEq

/-- `MusicBot` of bot.go, without the session and the mutexes. -/
structure MusicBot where
  VoiceConn : Option VoiceConnection
  Queue : List Song
  CurrentlyPlaying : Bool
  CurrentSong : Option Song
  CurrentSongMessageID : String
  CurrentSongChannelID : String
  PauseState : PauseState
deriving DecidableEq

/-- The bot together with what the package does to its surroundings: the
ffmpeg processes started so far, the number of `playQueue` goroutines that have
been started and have not reached their end, the songs announced by the
"Playing song" log line, the number of calls of `ffmpegOut.Read`, and the
blocks handed to `OpusEncoder.Encode`. -/
structure System where
  bot : MusicBot
  procs : List Proc
  loops : Nat
  played : List Song
  reads : Nat
  encoded : List (List Nat)
deriving DecidableEq

/-- `NewMusicBot`: every field has its zero value. -/
def NewMusicBot : MusicBot where
  VoiceConn := none
  Queue := []
  CurrentlyPlaying := false
  CurrentSong := none
  CurrentSongMessageID := ""
  CurrentSongChannelID := ""
  PauseState :=
    { Paused := false, Pos := Float64.zero, TotalPlayTime := Float64.zero,
      SkipReq := false, Cmd := none }

/-- The state of a freshly started program. -/
def System.init : System where
  bot := NewMusicBot
  procs := []
  loops := 0
  played := []
  reads := 0
  encoded := []

/-- How a call either comes back, waits for more input than the trace holds,
or dereferences a nil pointer. -/
inductive Outcome (α : Type) where
  | returned (a : α)
  | blocked
  | panicked
deriving DecidableEq

/-! ## Slash commands on the playback state (bot.go) -/

/-- `cmd.Process.Kill()` on the process with handle `h`. -/
def Process_Kill : List Proc → Nat → List Proc
  | [], _ => []
  | p :: ps, 0 => { p with killed := true } :: ps
  | p :: ps, h + 1 => p :: Process_Kill ps h

/-- `pauseSlash`: nothing when already paused, else sets the flag. -/
def pauseSlash (s : System) : System :=
  if s.bot.PauseState.Paused then s
  else { s with bot.PauseState.Paused := true }

/-- `resumeSlash`: nothing when not paused, else clears the flag. -/
def resumeSlash (s : System) : System :=
  if !s.bot.PauseState.Paused then s
  else { s with bot.PauseState.Paused := false }

/-- `nextSlash`: sets `SkipReq` and kills the stored process, if any. -/
def nextSlash (s : System) : System :=
  let s1 : System := { s with bot.PauseState.SkipReq := true }
  match s1.bot.PauseState.Cmd with
  | some h => { s1 with procs := Process_Kill s1.procs h }
  | none => s1

/-- `stopSlash`, block by block. -/
def stopSlash (s : System) : System :=
  -- Clear the queue
  let s1 : System := { s with bot.Queue := [] }
  -- Kill the ffmpeg process if it's running
  let s2 : System :=
    match s1.bot.PauseState.Cmd with
    | some h => { s1 with procs := Process_Kill s1.procs h, bot.PauseState.Cmd := none }
    | none => s1
  -- Disconnect from the voice channel
  let s3 : System :=
    match s2.bot.VoiceConn with
    | some _ => { s2 with bot.VoiceConn := none }
    | none => s2
  -- Delete the current embed message
  let s4 : System :=
    if s3.bot.CurrentSongMessageID ≠ "" ∧ s3.bot.CurrentSongChannelID ≠ "" then
      { s3 with bot.CurrentSongMessageID := "", bot.CurrentSongChannelID := "" }
    else s3
  -- Reset playback state
  { s4 with bot.CurrentlyPlaying := false, bot.CurrentSong := none }

/-- The slash commands that only touch `PauseState`, as other goroutines may
run them while the playback loop is busy. -/
inductive Command where
  | pause
  | resume
  | next
deriving DecidableEq

/-- Runs one such command. -/
def Command.run : Command → System → System
  | .pause, s => pauseSlash s
  | .resume, s => resumeSlash s
  | .next, s => nextSlash s

/-! ## The frame encoder (encoder.go) -/

/-- Go `int16(x)`: the value wrapped to 16 bits, two's complement. -/
def int16 (x : Int) : Int := (x + 32768) % 65536 - 32768

/-- The conversion loop of `OpusEncoder.Encode`:
`pcmData[i] = int16(pcm[2*i]) | int16(pcm[2*i+1])<<8` for `i < len(pcm)/2`.
A byte is a natural number read modulo 256. -/
def OpusEncoder.pcmData (pcm : List Nat) : List Int :=
  (List.range (pcm.length / 2)).map fun i =>
    int16 (((pcm.getD (2 * i) 0 % 256) ||| ((pcm.getD (2 * i + 1) 0 % 256) <<< 8) : Nat) : Int)

/-! ## One decode session (ffmpeg.go, `playSong`) -/

/-- What `ffmpegOut.Read(rawBuf)` returns: `n = b.length` bytes and a nil
error, end of stream, or another error. -/
inductive ReadResult where
  | bytes (b : List Nat)
  | eof
  | failed
deriving DecidableEq

/-- One turn of the `for`/`select` loop of `playSong`, or a slash command run
by another goroutine between two turns.  `poll r ok` is the `default` case:
`r` is what the read returns if it is reached, `ok` whether the codec then
accepts the block. -/
inductive PumpEvent where
  | done (err : Bool)
  | progress (p : Float64)
  | poll (r : ReadResult) (ok : Bool)
  | command (c : Command)
deriving DecidableEq

/-- The `default` case of the `select`.  Every `break` in it leaves the
`select` only, so the loop goes on whatever the case does; `none` is the nil
dereference of `bot.VoiceConn.OpusSend`. -/
def playSong_default (s : System) (r : ReadResult) (ok : Bool) : Option System :=
  let paused := s.bot.PauseState.Paused
  let skip := s.bot.PauseState.SkipReq
  if paused || skip then some s
  else
    let s0 : System := { s with reads := s.reads + 1 }
    match r with
    | .eof => some s0
    | .failed => some s0
    | .bytes b =>
      if b.length = 0 then some s0
      else
        let s1 : System := { s0 with encoded := s0.encoded ++ [b] }
        if !ok then some s1
        else
          match s1.bot.VoiceConn with
          | none => none
          | some vc =>
            some { s1 with
              bot.VoiceConn := some { vc with OpusSend := vc.OpusSend ++ [OpusEncoder.pcmData b] } }

/-- The `for`/`select` loop of `playSong`: it is left only through the
`doneChan` case (`goto cleanup`). -/
def playSong_loop : System → List PumpEvent → Outcome System
  | _, [] => .blocked
  | s, .done _ :: _ => .returned s
  | s, .progress p :: evs => playSong_loop { s with bot.PauseState.Pos := p } evs
  | s, .poll r ok :: evs =>
    match playSong_default s r ok with
    | some s1 => playSong_loop s1 evs
    | none => .panicked
  | s, .command c :: evs => playSong_loop (c.run s) evs

/-- How creating and starting the process goes. -/
inductive SpawnResult where
  | stdoutPipeError
  | stderrPipeError
  | startError
  | started
deriving DecidableEq

/-- The errors `playSong` returns. -/
inductive PlayError where
  | stdoutPipe
  | stderrPipe
  | start
  | encoder
deriving DecidableEq

/-- What one call of `playSong` meets: how the spawn goes, whether
`newOpusEncoder` succeeds, and the turns of its loop. -/
structure PlayEnv where
  spawn : SpawnResult
  encoderOk : Bool
  events : List PumpEvent
deriving DecidableEq

/-- The start offset `playSong` computes:
`startPos := TotalPlayTime + Pos; if Pos == 0 { startPos = 0 }`. -/
def playSong_startPos (ps : PauseState) : Float64 :=
  let startPos := ps.TotalPlayTime.add ps.Pos
  if ps.Pos.isZero then Float64.zero else startPos

/-- The `cleanup:` label of `playSong`, for the process with handle `h`. -/
def playSong_cleanup (s : System) (h : Nat) : Outcome System :=
  match s.bot.VoiceConn with
  | none => .panicked
  | some vc =>
    .returned { s with
      bot.VoiceConn := some { vc with speaking := false }
      procs := Process_Kill s.procs h
      bot.PauseState.Cmd := none }

/-- `playSong`. -/
def playSong (s : System) (song : Song) (env : PlayEnv) : Outcome (System × Option PlayError) :=
  let startPos := playSong_startPos s.bot.PauseState
  match env.spawn with
  | .stdoutPipeError => .returned (s, some .stdoutPipe)
  | .stderrPipeError => .returned (s, some .stderrPipe)
  | .startError => .returned (s, some .start)
  | .started =>
    let h := s.procs.length
    let s1 : System :=
      { s with
        procs := s.procs ++ [{ startPos := startPos, input := song.StreamURL, killed := false }]
        bot.PauseState.Cmd := some h }
    match s1.bot.VoiceConn with
    | none => .panicked
    | some vc =>
      let s2 : System := { s1 with bot.VoiceConn := some { vc with speaking := true } }
      if !env.encoderOk then .returned (s2, some .encoder)
      else
        match playSong_loop s2 env.events with
        | .returned s3 =>
          match playSong_cleanup s3 h with
          | .returned s4 => .returned (s4, none)
          | .blocked => .blocked
          | .panicked => .panicked
        | .blocked => .blocked
        | .panicked => .panicked

/-- `playSong` from its first line to the entry of its loop, lines 17 to 77,
when the process starts and `newOpusEncoder` succeeds: the state in which the
loop is entered and the handle of the process.  `none` is the nil dereference
of `bot.VoiceConn`. -/
def playSong_enter (s : System) (song : Song) : Option (System × Nat) :=
  let startPos := playSong_startPos s.bot.PauseState
  let h := s.procs.length
  let s1 : System :=
    { s with
      procs := s.procs ++ [{ startPos := startPos, input := song.StreamURL, killed := false }]
      bot.PauseState.Cmd := some h }
  match s1.bot.VoiceConn with
  | none => none
  | some vc => some ({ s1 with bot.VoiceConn := some { vc with speaking := true } }, h)

/-! ## The controller loop (player.go, `playQueue`) -/

/-- The head of the loop body, lines 103 to 120: the exit test and the pop.
`none` is the `break`; otherwise the song to play and the bot after the step. -/
def playQueue_pop (b : MusicBot) : Option (Song × MusicBot) :=
  if b.Queue.length = 0 ∧ b.CurrentSong = none then none
  else
    match b.CurrentSong with
    | none =>
      match b.Queue with
      | [] => none
      | song :: rest => some (song, { b with Queue := rest, CurrentSong := some song })
    | some song => some (song, b)

/-- The step after `playSong` has returned, lines 134 to 146. -/
def playQueue_afterSong (s : System) : System :=
  if s.bot.PauseState.SkipReq then
    { s with
      bot.PauseState.SkipReq := false
      bot.PauseState.Paused := false
      bot.PauseState.Pos := Float64.zero
      bot.PauseState.TotalPlayTime := Float64.zero
      bot.CurrentSong := none }
  else if !s.bot.PauseState.Paused then
    { s with bot.CurrentSong := none }
  else s

/-- The wait of lines 149 to 152, with the commands that arrive meanwhile. -/
def playQueue_wait : System → List Command → Outcome System
  | s, [] => if s.bot.PauseState.Paused then .blocked else .returned s
  | s, c :: cs => if s.bot.PauseState.Paused then playQueue_wait (c.run s) cs else .returned s

/-- The end of `playQueue`, lines 155 to 157; the goroutine is over. -/
def playQueue_exit (s : System) : System :=
  { s with bot.CurrentlyPlaying := false, loops := s.loops - 1 }

/-- What one turn of the controller loop meets. -/
structure IterEnv where
  play : PlayEnv
  whilePaused : List Command
deriving DecidableEq

/-- `playQueue`, one `IterEnv` per turn of its loop. -/
def playQueue (s : System) : List IterEnv → Outcome System
  | [] =>
    match playQueue_pop s.bot with
    | none => .returned (playQueue_exit s)
    | some _ => .blocked
  | env :: rest =>
    match playQueue_pop s.bot with
    | none => .returned (playQueue_exit s)
    | some (song, b1) =>
      let s1 : System := { s with bot := b1, played := s.played ++ [song] }
      match playSong s1 song env.play with
      | .returned (s2, _) =>
        match playQueue_wait (playQueue_afterSong s2) env.whilePaused with
        | .returned s3 => playQueue s3 rest
        | .blocked => .blocked
        | .panicked => .panicked
      | .blocked => .blocked
      | .panicked => .panicked

/-! ## Enqueue and restart -/

/-- How the steps of `handlePlayCommandSlash` before the enqueue go. -/
inductive PlayRequest where
  | respondError
  | joinError
  | fetchError (vc : VoiceConnection)
  | ok (vc : VoiceConnection) (song : Song)
deriving DecidableEq

/-- Lines 52 to 55 of `handlePlayCommandSlash`: the append. -/
def enqueue (b : MusicBot) (song : Song) : MusicBot :=
  { b with Queue := b.Queue ++ [song] }

/-- `handlePlayCommandSlash`.  `go bot.playQueue()` adds one to the number of
running loops; the loop itself is `playQueue`. -/
def handlePlayCommandSlash (s : System) (req : PlayRequest) : System :=
  match req with
  | .respondError => s
  | .joinError => s
  | .fetchError vc => { s with bot.VoiceConn := some vc }
  | .ok vc song =>
    let s1 : System := { s with bot := enqueue { s.bot with VoiceConn := some vc } song }
    if !s1.bot.CurrentlyPlaying then
      { s1 with bot.CurrentlyPlaying := true, loops := s1.loops + 1 }
    else s1

/-- The locked block of `restartSlash`, lines 259 to 272. -/
def restartSlash_reset (s : System) : System :=
  let s1 : System :=
    match s.bot.PauseState.Cmd with
    | some h => { s with procs := Process_Kill s.procs h, bot.PauseState.Cmd := none }
    | none => s
  { s1 with
    bot.PauseState.Paused := false
    bot.PauseState.Pos := Float64.zero
    bot.PauseState.TotalPlayTime := Float64.zero
    bot.PauseState.SkipReq := false }

/-- `restartSlash` up to its `go` statement: the locked block, then the test
`bot.CurrentSong != nil` that decides whether the goroutine is started.  The
goroutine holds no lock and runs beside the other goroutines; its two steps,
`restartSlash_fetch` and `restartSlash_play`, each take the state they
meet. -/
def restartSlash (s : System) : System × Bool :=
  (restartSlash_reset s, (restartSlash_reset s).bot.CurrentSong.isSome)

/-- The goroutine of `restartSlash` up to the return of `safeFetchSongInfo`
(`lookup`), lines 277 to 293: it reads `bot.CurrentSong.OriginalURL`, a nil
dereference when the slot has been emptied by then; on a lookup error
(`none`) the goroutine returns. -/
def restartSlash_fetch (s : System) (lookup : String → Option Song) : Outcome (Option Song) :=
  match s.bot.CurrentSong with
  | none => .panicked
  | some cur => .returned (lookup cur.OriginalURL)

/-- The goroutine of `restartSlash` after a lookup that gave `song`, lines 295
to 299, in the state it meets then: `bot.CurrentSong = song`, then
`bot.playSong(song)`. -/
def restartSlash_play (s : System) (song : Song) (env : PlayEnv) :
    Outcome (System × Option PlayError) :=
  playSong { s with bot.CurrentSong := some song } song env

/-! ## Auxiliary predicates on traces -/

/-- The turn is not a slash command. -/
def PumpEvent.isCommand : PumpEvent → Bool
  | .command _ => true
  | _ => false

/-- The turn is the `doneChan` case. -/
def PumpEvent.isDone : PumpEvent → Bool
  | .done _ => true
  | _ => false

/-- A session nobody interferes with: no slash command arrives during the
loop, and the progress parser eventually reports completion. -/
def PlayEnv.undisturbed (e : PlayEnv) : Bool :=
  e.events.all (fun ev => !ev.isCommand) && e.events.any PumpEvent.isDone

/-- What no turn of the loop and no interleaved command touches. -/
def sameQueue (s t : System) : Prop :=
  t.bot.Queue = s.bot.Queue ∧ t.bot.CurrentSong = s.bot.CurrentSong ∧
  t.played = s.played ∧ t.loops = s.loops ∧
  t.bot.CurrentlyPlaying = s.bot.CurrentlyPlaying ∧
  t.bot.VoiceConn.isSome = s.bot.VoiceConn.isSome ∧
  t.bot.PauseState.TotalPlayTime = s.bot.PauseState.TotalPlayTime

/-- The two flags the loop reads. -/
def flagsOff (s : System) : Prop :=
  s.bot.PauseState.Paused = false ∧ s.bot.PauseState.SkipReq = false

/-! ## Library functions used by the progress tracker

Go strings are byte strings; the status stream of ffmpeg is ASCII, and a
string is a list of characters here.  The functions below follow the Go
standard library (`strings`, `fmt/scan.go`, `strconv/atof.go`).  A text is
read as the exact number it denotes, which `ParseFloat` rounds to the nearest
`float64`; a number beyond the range is a range error, on which `Sscanf`
fails. -/

namespace strings

/-- `strings.Split(s, sep)` for a separator of one character: the pieces of
`s` between the separators, one piece more than there are separators. -/
def Split : List Char → Char → List (List Char)
  | [], _ => [[]]
  | c :: cs, sep =>
    if c = sep then [] :: Split cs sep
    else
      match Split cs sep with
      | [] => [[c]]
      | p :: ps => (c :: p) :: ps

/-- `strings.HasPrefix(s, p)`. -/
def HasPrefix (s p : List Char) : Bool := p.isPrefixOf s

/-- `strings.TrimPrefix(s, p)`. -/
def TrimPrefix (s p : List Char) : List Char :=
  if HasPrefix s p then s.drop p.length else s

end strings

namespace Float64

/-- Go `int`, of 64 bits: the value wrapped, two's complement. -/
def int64 (x : Int) : Int := (x + 9223372036854775808) % 18446744073709551616 - 9223372036854775808

/-- `math.Ldexp(f, m)`: `f` times 2 to the power `m`, rounded.  The code adds
`m` to the binary exponent of `f` in an `int` (`e`), returns 0 below -1075
and an infinity above 1023, and otherwise builds the value from `e`. -/
def ldexp : Float64 → Int → Float64
  | finite k h, m =>
    if k = 0 then finite k h
    else
      let exp0 : Int := (binary64.log2 k.natAbs : Int) - 1074
      let e := int64 (m + exp0)
      if e < -1075 then zero
      else if 1023 < e then inf (decide (k < 0))
      else if 0 ≤ e - exp0 then ofUnits (decide (k < 0)) (k.natAbs * 2 ^ (e - exp0).toNat) 1
      else ofUnits (decide (k < 0)) k.natAbs (2 ^ (-(e - exp0)).toNat)
  | inf neg, _ => inf neg
  | nan, _ => nan

end Float64

namespace strconv

/-- `commonPrefixLenIgnoreCase(s, p)` of atof.go, `p` in lower case. -/
def commonPrefixLenIgnoreCase : List Char → List Char → Nat
  | c :: cs, p :: ps =>
    let c1 := if 'A' ≤ c ∧ c ≤ 'Z' then Char.ofNat (c.toNat + 32) else c
    if c1 = p then commonPrefixLenIgnoreCase cs ps + 1 else 0
  | _, _ => 0

/-- The length `special` accepts for a text that may start "infinity": 3 or 8
characters in common, a longer start than "inf" counting as "inf". -/
def infinityLen (s : List Char) : Option Nat :=
  let n := commonPrefixLenIgnoreCase s ['i', 'n', 'f', 'i', 'n', 'i', 't', 'y']
  let n := if 3 < n ∧ n < 8 then 3 else n
  if n = 3 ∨ n = 8 then some n else none

/-- `special` of atof.go: an optionally signed "inf" or "infinity", or "nan",
at the start of `s`, with the number of characters it takes. -/
def special : List Char → Option (Float64 × Nat)
  | [] => none
  | c :: cs =>
    if c = '+' ∨ c = '-' then
      (infinityLen cs).map fun n => (Float64.inf (decide (c = '-')), 1 + n)
    else if c = 'i' ∨ c = 'I' then
      (infinityLen (c :: cs)).map fun n => (Float64.inf false, n)
    else if c = 'n' ∨ c = 'N' then
      if commonPrefixLenIgnoreCase (c :: cs) ['n', 'a', 'n'] = 3 then some (Float64.nan, 3)
      else none
    else none

/-- The value of a letter as a hexadecimal digit. -/
def hexLetter (c : Char) : Option Nat :=
  if 'a' ≤ c ∧ c ≤ 'f' then some (c.toNat - 97 + 10)
  else if 'A' ≤ c ∧ c ≤ 'F' then some (c.toNat - 65 + 10)
  else none

/-- The state of the digit loop of `readFloat`: the digits read so far as one
number in the base, how many of them stand after the point, and the flags of
the loop. -/
structure Digits where
  mant : Nat
  frac : Nat
  sawdot : Bool
  sawdigits : Bool
  underscores : Bool
deriving DecidableEq

/-- One more digit of value `v` in base `base`. -/
def Digits.push (d : Digits) (base v : Nat) : Digits :=
  { d with
    mant := d.mant * base + v
    frac := if d.sawdot then d.frac + 1 else d.frac
    sawdigits := true }

/-- The digit loop of `readFloat`: underscores, one point, digits of the
base; it stops at the first other character and returns what is left. -/
def digitLoop (hex : Bool) : List Char → Digits → Digits × List Char
  | [], d => (d, [])
  | c :: cs, d =>
    if c = '_' then digitLoop hex cs { d with underscores := true }
    else if c = '.' then
      if d.sawdot then (d, c :: cs) else digitLoop hex cs { d with sawdot := true }
    else if c.isDigit then digitLoop hex cs (d.push (if hex then 16 else 10) (c.toNat - 48))
    else
      match hex, hexLetter c with
      | true, some v => digitLoop hex cs (d.push 16 v)
      | _, _ => (d, c :: cs)

/-- The exponent digit loop of `readFloat`, with its guard `e < 10000`. -/
def expLoop : List Char → Nat → Bool → Nat × Bool × List Char
  | [], e, u => (e, u, [])
  | c :: cs, e, u =>
    if c = '_' then expLoop cs e true
    else if c.isDigit then expLoop cs (if e < 10000 then e * 10 + (c.toNat - 48) else e) u
    else (e, u, c :: cs)

/-- `underscoreOK` of atoi.go, after the optional sign: `saw` is the last
character class seen ('^', '0', '_' or '!'). -/
def underscoreLoop (hex : Bool) : List Char → Char → Bool
  | [], saw => saw != '_'
  | c :: cs, saw =>
    if c.isDigit ∨ (hex ∧ (hexLetter c).isSome) then underscoreLoop hex cs '0'
    else if c = '_' then
      if saw != '0' then false else underscoreLoop hex cs '_'
    else if saw = '_' then false
    else underscoreLoop hex cs '!'

/-- `underscoreOK(s)`. -/
def underscoreOK (s : List Char) : Bool :=
  let s1 : List Char :=
    match s with
    | [] => []
    | c :: r => if c = '+' ∨ c = '-' then r else c :: r
  match s1 with
  | c0 :: x :: r =>
    if c0 = '0' ∧ (x = 'b' ∨ x = 'B' ∨ x = 'o' ∨ x = 'O' ∨ x = 'x' ∨ x = 'X') then
      underscoreLoop (decide (x = 'x' ∨ x = 'X')) r '0'
    else underscoreLoop false s1 '^'
  | _ => underscoreLoop false s1 '^'

/-- The optional sign at the start of `readFloat` and of `Atoi`: whether it
is a minus, and the input after it. -/
def takeSign : List Char → Bool × List Char
  | [] => (false, [])
  | c :: r => if c = '+' then (false, r) else if c = '-' then (true, r) else (false, c :: r)

/-- The base prefix test of `readFloat`:
`i+2 < len(s) && s[i] == '0' && lower(s[i+1]) == 'x'`. -/
def takeHexPrefix : List Char → Bool × List Char
  | c0 :: x :: c :: r =>
    if c0 = '0' ∧ (x = 'x' ∨ x = 'X') then (true, c :: r) else (false, c0 :: x :: c :: r)
  | s => (false, s)

/-- The optional exponent of `readFloat`: the signed exponent, whether it
holds an underscore, and the input left.  `none` when the exponent character
is not followed by a digit, or when a hexadecimal mantissa has no exponent. -/
def readExponent (hex : Bool) : List Char → Option (Int × Bool × List Char)
  | [] => if hex then none else some (0, false, [])
  | c :: r =>
    if (if hex then c = 'p' ∨ c = 'P' else c = 'e' ∨ c = 'E') then
      let (esign, r1) : Int × List Char :=
        match r with
        | [] => (1, [])
        | c1 :: r1 => if c1 = '+' then (1, r1) else if c1 = '-' then (-1, r1) else (1, c1 :: r1)
      match r1 with
      | [] => none
      | c1 :: _ =>
        if c1.isDigit then
          let (e, u, r2) := expLoop r1 0 false
          some (e * esign, u, r2)
        else none
    else if hex then none
    else some (0, false, c :: r)

/-- The exact value of the digits `d` with exponent `e`: a power of 10 for a
decimal mantissa, a power of 2 for a hexadecimal one. -/
def floatValue (hex neg : Bool) (d : Digits) (e : Int) : ℚ :=
  let q : ℚ :=
    if hex then (d.mant : ℚ) * 2 ^ (e - 4 * (d.frac : Int))
    else (d.mant : ℚ) * 10 ^ (e - (d.frac : Int))
  if neg then -q else q

/-- `readFloat` of atof.go: the exact value of the decimal or hexadecimal
number at the start of `s` and the input left after it, or `none` when
there is no well-formed number. -/
def readFloat (s : List Char) : Option (ℚ × List Char) :=
  let (neg, s1) := takeSign s
  let (hex, s2) := takeHexPrefix s1
  let (d, s3) := digitLoop hex s2 ⟨0, 0, false, false, false⟩
  if !d.sawdigits then none
  else
    match readExponent hex s3 with
    | none => none
    | some (e, u, rest) =>
      if (d.underscores || u) && !underscoreOK (s.take (s.length - rest.length)) then none
      else some (floatValue hex neg d e, rest)

/-- The end of `atof64`: the float64 nearest to the exact value `q` of the
text; when that is an infinity the error is `ErrRange` (`none`). -/
def atof64 (q : ℚ) : Option Float64 :=
  match Float64.fin q with
  | .inf _ => none
  | v => some v

/-- `strconv.ParseFloat(s, 64)` when its error is nil: the value.  `none` is
a syntax error or a range error. -/
def ParseFloat (s : List Char) : Option Float64 :=
  match special s with
  | some (v, n) => if n = s.length then some v else none
  | none =>
    match readFloat s with
    | some (q, []) => atof64 q
    | _ => none

/-- `strconv.Atoi(s)`: an optionally signed string of decimal digits within
the range of a 64-bit `int`, or `none`. -/
def Atoi (s : List Char) : Option Int :=
  let (neg, s1) := takeSign s
  if s1 = [] ∨ ¬ (s1.all Char.isDigit = true) then none
  else
    let n : Int := (s1.foldl (fun n c => n * 10 + (c.toNat - 48)) 0 : Nat)
    let v : Int := if neg then -n else n
    if -(2 ^ 63 : Int) ≤ v ∧ v < 2 ^ 63 then some v else none

end strconv

namespace fmt

/-- `isSpace` of scan.go, by its table of ranges. -/
def isSpace (c : Char) : Bool :=
  let r := c.toNat
  (9 ≤ r && r ≤ 13) || r == 32 || r == 133 || r == 160 || r == 5760 ||
  (8192 ≤ r && r ≤ 8202) || r == 8232 || r == 8233 || r == 8239 || r == 8287 || r == 12288

/-- `ss.SkipSpace` in a scan where a newline is no space (`Sscanf`): the
input left, or `none` for the error "unexpected newline". -/
def SkipSpace : List Char → Option (List Char)
  | [] => some []
  | c :: cs =>
    if c = '\r' ∧ cs.head? = some '\n' then SkipSpace cs
    else if c = '\n' then none
    else if !isSpace c then some (c :: cs)
    else SkipSpace cs

/-- Calls of `ss.accept` joined by `&&`, one per set of `oks`: each takes the
next character into the token when it is in its set; the row stops at the
first that does not.  The state is the token so far and the input left. -/
def acceptSeq : List (List Char) → List Char → List Char → Bool × List Char × List Char
  | [], buf, inp => (true, buf, inp)
  | _ :: _, buf, [] => (false, buf, [])
  | ok :: oks, buf, c :: cs =>
    if c ∈ ok then acceptSeq oks (buf ++ [c]) cs else (false, buf, c :: cs)

/-- The loop `for s.accept(ok) {}`. -/
def acceptAll (ok : List Char) : List Char → List Char → List Char × List Char
  | buf, [] => (buf, [])
  | buf, c :: cs => if c ∈ ok then acceptAll ok (buf ++ [c]) cs else (buf, c :: cs)

/-- The constant `decimalDigits + "_"`. -/
def decimalDigits_ : List Char :=
  ['0', '1', '2', '3', '4', '5', '6', '7', '8', '9', '_']

/-- The constant `hexadecimalDigits + "_"`. -/
def hexadecimalDigits_ : List Char :=
  ['0', '1', '2', '3', '4', '5', '6', '7', '8', '9', 'a', 'A', 'b', 'B', 'c', 'C', 'd', 'D',
   'e', 'E', 'f', 'F', '_']

/-- The second half of `ss.floatToken`, after the tests for NaN, a sign, Inf
and the prefix 0x: the digits, the point and the fraction, the exponent. -/
def floatToken_number (hex : Bool) (buf4 rest4 : List Char) : List Char × List Char :=
  let digits := if hex then hexadecimalDigits_ else decimalDigits_
  let exp : List Char := if hex then ['p', 'P'] else ['e', 'E', 'p', 'P']
  -- digits?
  let (buf5, rest5) := acceptAll digits buf4 rest4
  -- decimal point?
  let (buf6, rest6) :=
    match acceptSeq [['.']] buf5 rest5 with
    | (true, buf, rest) => acceptAll digits buf rest
    | (false, buf, rest) => (buf, rest)
  -- exponent?
  match acceptSeq [exp] buf6 rest6 with
  | (true, buf, rest) =>
    let (_, buf7, rest7) := acceptSeq [['+', '-']] buf rest
    acceptAll decimalDigits_ buf7 rest7
  | (false, buf, rest) => (buf, rest)

/-- `ss.floatToken`: the token and the input left after it. -/
def floatToken (inp : List Char) : List Char × List Char :=
  -- NaN?
  match acceptSeq [['n', 'N'], ['a', 'A'], ['n', 'N']] [] inp with
  | (true, buf, rest) => (buf, rest)
  | (false, buf1, rest1) =>
    -- leading sign?
    let (_, buf2, rest2) := acceptSeq [['+', '-']] buf1 rest1
    -- Inf?
    match acceptSeq [['i', 'I'], ['n', 'N'], ['f', 'F']] buf2 rest2 with
    | (true, buf, rest) => (buf, rest)
    | (false, buf3, rest3) =>
      let (hex, buf4, rest4) := acceptSeq [['0'], ['x', 'X']] buf3 rest3
      floatToken_number hex buf4 rest4

/-- `hasX` of scan.go. -/
def hasX (s : List Char) : Bool := s.any fun c => c = 'x' ∨ c = 'X'

/-- `ss.convertFloat(str, 64)`: `none` is the scan error. -/
def convertFloat (str : List Char) : Option Float64 :=
  if 'p' ∈ str ∧ hasX str = false then
    match strconv.ParseFloat (str.takeWhile (· ≠ 'p')),
        strconv.Atoi ((str.dropWhile (· ≠ 'p')).drop 1) with
    | some f, some m => some (f.ldexp m)
    | _, _ => none
  else strconv.ParseFloat str

/-- `fmt.Sscanf(str, "%f", &v)`: the value stored in `v`, or `none` when the
scan fails, which leaves `v` as it was. -/
def Sscanf_f (str : List Char) : Option Float64 :=
  match SkipSpace str with
  | none => none
  | some s1 =>
    match SkipSpace s1 with
    | none => none
    | some [] => none
    | some (c :: cs) => convertFloat (floatToken (c :: cs)).1

end fmt

/-! ## The progress tracker (ffmpeg.go, `parseFFmpegProgress`) -/

/-- The text "out_time=". -/
def outTimeKey : List Char := ['o', 'u', 't', '_', 't', 'i', 'm', 'e', '=']

/-- The body of the loop over the lines of one read: what the line sends on
`progressChan`, if anything.  A failed `Sscanf` leaves its variable 0.  Each
product and each sum of `hours*3600 + minutes*60 + seconds` is rounded on its
own, as the compiler does where it does not fuse a product and a sum. -/
def parseFFmpegProgress_line (line : List Char) : Option Float64 :=
  if strings.HasPrefix line outTimeKey then
    let timeStr := strings.TrimPrefix line outTimeKey
    let parts := strings.Split timeStr ':'
    if parts.length = 3 then
      let hours := (fmt.Sscanf_f (parts.getD 0 [])).getD Float64.zero
      let minutes := (fmt.Sscanf_f (parts.getD 1 [])).getD Float64.zero
      let seconds := (fmt.Sscanf_f (parts.getD 2 [])).getD Float64.zero
      let progress := ((hours.mul (.fin 3600)).add (minutes.mul (.fin 60))).add seconds
      some progress
    else none
  else none

/-- What one successful read of the status stream sends on `progressChan`:
the read is split at the newlines and every piece is handled as a line. -/
def parseFFmpegProgress_read (output : List Char) : List Float64 :=
  (strings.Split output '\n').filterMap parseFFmpegProgress_line

/-- What a `Read` of the status stream returns: at most 1024 bytes and a nil
error, end of stream, or another error. -/
inductive StatusRead where
  | chunk (output : List Char)
  | eof
  | failed
deriving DecidableEq

/-- `parseFFmpegProgress`: the values sent on `progressChan`, in order, and
what is sent on `done` (`some false` for nil, `some true` for an error, `none`
while the reader still waits for the stream). -/
def parseFFmpegProgress : List StatusRead → List Float64 × Option Bool
  | [] => ([], none)
  | .eof :: _ => ([], some false)
  | .failed :: _ => ([], some true)
  | .chunk output :: rest =>
    let (vs, d) := parseFFmpegProgress rest
    (parseFFmpegProgress_read output ++ vs, d)

/-! ## The format of a status line, as the specification words it -/

/-- A decimal number: a non-empty string of the digits 0 to 9. -/
def isDecimal (ds : List Char) : Prop := ds ≠ [] ∧ ∀ c ∈ ds, c.isDigit = true

/-- The number a string of decimal digits denotes. -/
def decimalValue (ds : List Char) : Nat := ds.foldl (fun n c => n * 10 + (c.toNat - 48)) 0

/-- The text of a seconds field: whole seconds, and a fraction if there is
one. -/
def secondsText (whole : List Char) : Option (List Char) → List Char
  | none => whole
  | some fraction => whole ++ '.' :: fraction

/-- The number a seconds field denotes. -/
def secondsValue (whole : List Char) : Option (List Char) → ℚ
  | none => decimalValue whole
  | some fraction => decimalValue whole + (decimalValue fraction : ℚ) / 10 ^ fraction.length

/-- The float64 a field that denotes the number `q` is read as: the nearest
to `q`, and 0 when `q` is beyond the range, since the scan then fails and
leaves the variable as it was declared. -/
def scanned (q : ℚ) : Float64 := (strconv.atof64 q).getD Float64.zero

/-- The status line `out_time=H:M:S`. -/
def statusLine (H M whole : List Char) (fraction : Option (List Char)) : List Char :=
  outTimeKey ++ H ++ ':' :: M ++ ':' :: secondsText whole fraction

/-! ## Requests and reachable states -/

/-- The requests the bot serves: `/play` (with how its first steps go), the
commands on `PauseState`, `/stop`, and `/restart`.  Serving a request is the
call of its handler; the goroutines a handler starts (`playQueue`, the
goroutine of `restartSlash`) run on their own. -/
inductive Request where
  | play (req : PlayRequest)
  | command (c : Command)
  | stop
  | restart

/-- Serves one request. -/
def Request.run : Request → System → Outcome System
  | .play req, s => .returned (handlePlayCommandSlash s req)
  | .command c, s => .returned (c.run s)
  | .stop, s => .returned (stopSlash s)
  | .restart, s => .returned (restartSlash s).1

/-- The steps that change the "currently playing" flag or the number of
running playback loops: an enqueue through `handlePlayCommandSlash`, a
`stopSlash`, and a playback loop reaching the end of `playQueue` (it leaves
its `for` only when the pop step finds nothing). -/
inductive LoopStep : System → System → Prop where
  | enqueue (s : System) (vc : VoiceConnection) (song : Song) :
      LoopStep s (handlePlayCommandSlash s (.ok vc song))
  | stop (s : System) : LoopStep s (stopSlash s)
  | loopExit (s : System) (hrun : 0 < s.loops) (hpop : playQueue_pop s.bot = none) :
      LoopStep s (playQueue_exit s)

/-! ## Concrete inputs -/

/-- A track of two minutes. -/
def songA : Song where
  Name := "A"
  StreamURL := "https://cdn.example/a.webm"
  Duration := "02:00"
  DurationSeconds := 120
  Thumbnail := "https://cdn.example/a.png"
  OriginalURL := "https://example.com/watch?v=a"

/-- A second track. -/
def songB : Song where
  Name := "B"
  StreamURL := "https://cdn.example/b.webm"
  Duration := "03:00"
  DurationSeconds := 180
  Thumbnail := "https://cdn.example/b.png"
  OriginalURL := "https://example.com/watch?v=b"

/-- A joined voice channel on which nothing was sent yet. -/
def voice0 : VoiceConnection := { speaking := false, OpusSend := [] }

/-- The state after `/play A` and `/play B`: both pending, one loop started. -/
def queuedAB : System :=
  handlePlayCommandSlash (handlePlayCommandSlash System.init (.ok voice0 songA))
    (.ok voice0 songB)

/-- A session that receives one block, a progress value `p`, then the end of
the stream and the completion of the progress parser. -/
def sessionTo (p : ℚ) : PlayEnv where
  spawn := .started
  encoderOk := true
  events := [.poll (.bytes [1, 2, 3, 4]) true, .progress (.fin p), .poll .eof true, .done false]

/-- A session in which `newOpusEncoder` fails once the process runs. -/
def sessionEncoderFails : PlayEnv where
  spawn := .started
  encoderOk := false
  events := []

/-- A track is playing at position 42 and playback is paused. -/
def pausedAt42 : System where
  bot :=
    { VoiceConn := some { speaking := true, OpusSend := [] }
      Queue := [songB]
      CurrentlyPlaying := true
      CurrentSong := some songA
      CurrentSongMessageID := "m1"
      CurrentSongChannelID := "c1"
      PauseState :=
        { Paused := true, Pos := .fin 42, TotalPlayTime := Float64.zero, SkipReq := false,
          Cmd := some 0 } }
  procs := [{ startPos := Float64.zero, input := songA.StreamURL, killed := false }]
  loops := 1
  played := [songA]
  reads := 0
  encoded := []

/-- A metadata lookup that resolves the request reference of `songA`. -/
def lookupA (url : String) : Option Song :=
  if url = songA.OriginalURL then some { songA with StreamURL := "https://cdn.example/a2.webm" }
  else none

/-- The arguments a process was started with. -/
def Proc.args (p : Proc) : Float64 × String := (p.startPos, p.input)

/-! ## The conversion loop of the encoder, operation by operation (encoder.go) -/

/-- Go `x << k` on `int16`: the product wrapped to 16 bits. -/
def int16_shl (x : Int) (k : Nat) : Int := int16 (x * 2 ^ k)

/-- Go `x | y` on `int16`: the bitwise or of the two 16-bit patterns. -/
def int16_or (x y : Int) : Int :=
  int16 (((x % 65536).toNat ||| (y % 65536).toNat : Nat) : Int)

/-- The conversion loop of `OpusEncoder.Encode` with the bounds check of its
index expressions, from index `i` for `k` more turns: `none` is the run-time
panic "index out of range". -/
def OpusEncoder.Encode_loop (pcm : List Nat) : Nat → Nat → Option (List Int)
  | _, 0 => some []
  | i, k + 1 =>
    match pcm[2 * i]?, pcm[2 * i + 1]? with
    | some lo, some hi =>
      (OpusEncoder.Encode_loop pcm (i + 1) k).map fun rest =>
        int16_or (int16 (lo % 256 : Nat)) (int16_shl (int16 (hi % 256 : Nat)) 8) :: rest
    | _, _ => none

/-- The samples `OpusEncoder.Encode` hands to the codec:
`pcmData := make([]int16, len(pcm)/2)` filled by the loop. -/
def OpusEncoder.Encode_pcmData (pcm : List Nat) : Option (List Int) :=
  OpusEncoder.Encode_loop pcm 0 (pcm.length / 2)

/-- The signed number a 16-bit pattern stands for in two's complement. -/
def signed16 (u : Nat) : Int := if u < 32768 then (u : Int) else (u : Int) - 65536

/-- The value the specification gives sample `i` of the block `pcm`. -/
def sampleAt (pcm : List Nat) (i : Nat) : Int :=
  signed16 (pcm.getD (2 * i) 0 % 256 + 256 * (pcm.getD (2 * i + 1) 0 % 256))

/-! ## Durations (song.go, `formatDuration`) -/

/-- The character of the decimal digit `d`: `'0' + d`. -/
def fmt.digit (d : Nat) : Char := Char.ofNat (48 + d)

/-- The base 10 loop of `fmtInteger` (format.go), `for u >= 10`, then the
leading digit: the digits of `u` put before `acc`.  `fuel` bounds the turns;
`u` itself is always enough. -/
def fmt.fmtDecimal : Nat → Nat → List Char → List Char
  | 0, u, acc => fmt.digit u :: acc
  | fuel + 1, u, acc =>
    if 10 ≤ u then fmt.fmtDecimal fuel (u / 10) (fmt.digit (u % 10) :: acc)
    else fmt.digit u :: acc

/-- `fmt.Sprintf("%02d", v)`: with the zero flag the width 2 becomes the
number of digits to print, one less when a minus sign takes a place. -/
def fmt.Sprintf_02d (v : Int) : List Char :=
  let negative : Bool := decide (v < 0)
  let u := v.natAbs
  let prec := if negative then 1 else 2
  let ds := fmt.fmtDecimal u u []
  let padded := List.replicate (prec - ds.length) '0' ++ ds
  if negative then '-' :: padded else padded

/-- `formatDuration` of song.go.  Go's `/` and `%` on `int` truncate towards
zero. -/
def formatDuration (seconds : Int) : String :=
  let hours := seconds.tdiv 3600
  let minutes := (seconds.tmod 3600).tdiv 60
  let secs := seconds.tmod 60
  if hours > 0 then
    String.mk (fmt.Sprintf_02d hours ++ ':' :: (fmt.Sprintf_02d minutes ++ ':' :: fmt.Sprintf_02d secs))
  else
    String.mk (fmt.Sprintf_02d minutes ++ ':' :: fmt.Sprintf_02d secs)

/-- A two-digit field: the tens digit and the units digit of a number below
100. -/
def twoDigits (k : Nat) : List Char := [fmt.digit (k / 10), fmt.digit (k % 10)]

/-- The decimal digits of a positive number, the most significant first. -/
def decimalDigits (k : Nat) : List Char := (Nat.digits 10 k).reverse.map fmt.digit

/-! ## The states the bot reaches -/

/-- The steps the state of the bot takes: a request is served (enqueue, pause,
resume, skip, stop, restart); a progress value is stored; turns of the loop of
`playSong` run up to its end; a whole call of `playSong` runs; the goroutine
of a restart sets the current song and runs its call of `playSong`; the
controller loop pops, handles the end of a track, waits while paused or ends;
a whole run of the controller loop. -/
inductive Step : System → System → Prop where
  | request (r : Request) (s t : System) (h : r.run s = .returned t) : Step s t
  | progress (s : System) (p : Float64) : Step s { s with bot.PauseState.Pos := p }
  | turns (s t : System) (evs : List PumpEvent) (h : playSong_loop s evs = .returned t) :
      Step s t
  | session (s t : System) (song : Song) (env : PlayEnv) (err : Option PlayError)
      (h : playSong s song env = .returned (t, err)) : Step s t
  | restartPlay (s t : System) (song : Song) (env : PlayEnv) (err : Option PlayError)
      (h : restartSlash_play s song env = .returned (t, err)) : Step s t
  | pop (s : System) (song : Song) (b : MusicBot) (h : playQueue_pop s.bot = some (song, b)) :
      Step s { s with bot := b, played := s.played ++ [song] }
  | afterSong (s : System) : Step s (playQueue_afterSong s)
  | wait (s t : System) (cmds : List Command) (h : playQueue_wait s cmds = .returned t) :
      Step s t
  | loopExit (s : System) : Step s (playQueue_exit s)
  | controller (s t : System) (envs : List IterEnv) (h : playQueue s envs = .returned t) :
      Step s t

/-- The states the bot can be in, from `NewMusicBot` on. -/
def Reachable (s : System) : Prop := Relation.ReflTransGen Step System.init s

/-- The baseline is 0. -/
def baselineZero (s : System) : Prop := s.bot.PauseState.TotalPlayTime = Float64.zero

/-! ## More concrete inputs -/

/-- The state in which the controller loop, having popped A with B pending,
calls `playSong` for A. -/
def poppedA : System :=
  { queuedAB with
    bot := { queuedAB.bot with Queue := [songB], CurrentSong := some songA }
    played := [songA] }

/-- A session whose first read fails with an error that is not the end of
the stream, and whose second read returns four bytes. -/
def sessionReadError : PlayEnv where
  spawn := .started
  encoderOk := true
  events := [.poll .failed true, .poll (.bytes [1, 2, 3, 4]) true, .done false]

/-- The same session cut off right after the failed read. -/
def sessionReadErrorOnly : PlayEnv where
  spawn := .started
  encoderOk := true
  events := [.poll .failed true, .done false]

/-- A session in which the codec rejects the first block and the next read
returns another block. -/
def sessionEncodeError : PlayEnv where
  spawn := .started
  encoderOk := true
  events := [.poll (.bytes [1, 2, 3, 4]) false, .poll (.bytes [5, 6, 7, 8]) true, .done false]

/-- A session whose one read fills 1000 of the 3840 bytes of the buffer. -/
def sessionShortRead : PlayEnv where
  spawn := .started
  encoderOk := true
  events := [.poll (.bytes (List.replicate 1000 0)) true, .done false]

/-! # Theorems -/

/-! ## Lemmas on `float64` -/

theorem log2Search_le (t : Nat) :
    ∀ j acc, 2 ^ acc ≤ t → 2 ^ binary64.log2Search t j acc ≤ t := by
  intro j
  induction j with
  | zero => intro acc h; exact h
  | succ j ih =>
    intro acc h
    unfold binary64.log2Search
    split
    · exact ih _ ‹_›
    · exact ih _ h

theorem log2Search_lt (t : Nat) :
    ∀ j acc, t < 2 ^ (acc + 2 ^ j) → t < 2 ^ (binary64.log2Search t j acc + 1) := by
  intro j
  induction j with
  | zero => intro acc h; simpa using h
  | succ j ih =>
    intro acc h
    unfold binary64.log2Search
    split
    · refine ih _ ?_
      have e : acc + 2 ^ j + 2 ^ j = acc + 2 ^ (j + 1) := by rw [pow_succ]; omega
      rw [e]; exact h
    · exact ih _ (Nat.lt_of_not_le ‹_›)

/-- The leading bit of `t` is at place `log2 t`. -/
theorem log2_le (t : Nat) (h : 0 < t) : 2 ^ binary64.log2 t ≤ t :=
  log2Search_le t 12 0 (by simpa using h)

theorem log2_lt (t : Nat) (h : t < 2 ^ 4096) : t < 2 ^ (binary64.log2 t + 1) :=
  log2Search_lt t 12 0 (by simpa using h)

/-- Rounding leaves the size of a float64 as it is. -/
theorem roundUnits_isValue (k : Nat) (h : binary64.isValue k = true) :
    binary64.roundUnits k 1 = k := by
  simp only [binary64.isValue, Bool.and_eq_true, decide_eq_true_eq] at h
  obtain ⟨h1, h2⟩ := h
  have hdvd : 2 ^ (binary64.log2 k - 52) ∣ k := Nat.dvd_of_mod_eq_zero h2
  have hpos : 0 < 2 ^ (binary64.log2 k - 52) := Nat.pow_pos (by decide)
  simp only [binary64.roundUnits, Nat.div_one, one_mul, Nat.not_le.mpr h1, if_false, h2, mul_zero]
  rw [if_neg]
  · exact Nat.div_mul_cancel hdvd
  · rintro (h | ⟨h, -⟩)
    · exact absurd h (Nat.not_lt_zero _)
    · omega

/-- Rounding depends on the quotient only. -/
theorem roundUnits_mul_left (c a d : Nat) (hc : 0 < c) :
    binary64.roundUnits (c * a) (c * d) = binary64.roundUnits a d := by
  have e1 : c * a / (c * d) = a / d := Nat.mul_div_mul_left a d hc
  have e2 : ∀ s, c * a / (c * d * 2 ^ s) = a / (d * 2 ^ s) := by
    intro s; rw [Nat.mul_assoc]; exact Nat.mul_div_mul_left a _ hc
  have e3 : ∀ s, c * a % (c * d * 2 ^ s) = c * (a % (d * 2 ^ s)) := by
    intro s; rw [Nat.mul_assoc]; exact Nat.mul_mod_mul_left c a _
  simp only [binary64.roundUnits, e1, e2, e3]
  split
  · rfl
  · have p1 : ∀ s, (c * d * 2 ^ s < 2 * (c * (a % (d * 2 ^ s)))) ↔
        (d * 2 ^ s < 2 * (a % (d * 2 ^ s))) := by
      intro s
      rw [Nat.mul_assoc, Nat.mul_left_comm 2 c]
      exact Nat.mul_lt_mul_left hc
    have p2 : ∀ s, (2 * (c * (a % (d * 2 ^ s))) = c * d * 2 ^ s) ↔
        (2 * (a % (d * 2 ^ s)) = d * 2 ^ s) := by
      intro s
      rw [Nat.mul_assoc, Nat.mul_left_comm 2 c]
      exact Nat.mul_right_inj (Nat.pos_iff_ne_zero.mp hc)
    simp only [p1, p2]

theorem roundUnits_congr (a d a1 d1 : Nat) (hd : 0 < d) (hd1 : 0 < d1) (h : a * d1 = a1 * d) :
    binary64.roundUnits a d = binary64.roundUnits a1 d1 := by
  rw [← roundUnits_mul_left d1 a d hd1, ← roundUnits_mul_left d a1 d1 hd]
  congr 1
  · rw [Nat.mul_comm, h, Nat.mul_comm]
  · exact Nat.mul_comm _ _

theorem ofUnits_congr (neg : Bool) (a d a1 d1 : Nat) (hd : 0 < d) (hd1 : 0 < d1)
    (h : a * d1 = a1 * d) : Float64.ofUnits neg a d = Float64.ofUnits neg a1 d1 := by
  unfold Float64.ofUnits
  rw [roundUnits_congr a d a1 d1 hd hd1 h]

/-- Rounding leaves a float64 as it is. -/
theorem ofUnits_isValue (k : Int) (h : binary64.isValue k.natAbs = true) :
    Float64.ofUnits (decide (k < 0)) k.natAbs 1 = Float64.finite k h := by
  have hk : (if decide (k < 0) = true then -((binary64.roundUnits k.natAbs 1 : Nat) : Int)
      else ((binary64.roundUnits k.natAbs 1 : Nat) : Int)) = k := by
    rw [roundUnits_isValue _ h]
    by_cases hneg : k < 0
    · simp only [hneg, decide_True, if_true]; omega
    · simp only [hneg, decide_False, Bool.false_eq_true, if_false]; omega
  unfold Float64.ofUnits
  simp only [hk]
  rw [dif_pos h]

/-- The float64 nearest to a quotient of whole numbers, in units. -/
theorem fin_divInt (n : Int) (d : Nat) (hd : 0 < d) :
    Float64.fin ((n : ℚ) / d) = Float64.ofUnits (decide (n < 0)) (n.natAbs * 2 ^ 1074) d := by
  have hdq : (0 : ℚ) < d := by exact_mod_cast hd
  have hq : ((n : ℚ) / d).num * (d : Int) = n * (((n : ℚ) / d).den : Int) := by
    have h1 := Rat.num_div_den ((n : ℚ) / d)
    have h2 : ((((n : ℚ) / d).num : ℚ)) * d = n * (((n : ℚ) / d).den : ℚ) := by
      field_simp at h1
      linarith
    exact_mod_cast h2
  have habs : ((n : ℚ) / d).num.natAbs * d = n.natAbs * ((n : ℚ) / d).den := by
    have := congrArg Int.natAbs hq
    simpa [Int.natAbs_mul] using this
  have hsign : decide ((n : ℚ) / d < 0) = decide (n < 0) := by
    have : ((n : ℚ) / d < 0) ↔ n < 0 := by
      rw [div_neg_iff]
      constructor
      · rintro (⟨_, h⟩ | ⟨h, _⟩)
        · exact absurd h (not_lt.mpr hdq.le)
        · exact_mod_cast h
      · intro h
        exact Or.inr ⟨by exact_mod_cast h, hdq⟩
    simp only [this]
  unfold Float64.fin
  rw [hsign]
  refine ofUnits_congr _ _ _ _ _ ((n : ℚ) / d).den_pos hd ?_
  calc ((n : ℚ) / d).num.natAbs * 2 ^ 1074 * d
      = ((n : ℚ) / d).num.natAbs * d * 2 ^ 1074 := by ring
    _ = n.natAbs * ((n : ℚ) / d).den * 2 ^ 1074 := by rw [habs]
    _ = n.natAbs * 2 ^ 1074 * ((n : ℚ) / d).den := by ring

theorem fin_natDiv (n d : Nat) (hd : 0 < d) :
    Float64.fin ((n : ℚ) / d) = Float64.ofUnits false (n * 2 ^ 1074) d := by
  have := fin_divInt (n : Int) d hd
  simpa using this

theorem fin_natCast (n : Nat) : Float64.fin (n : ℚ) = Float64.ofUnits false (n * 2 ^ 1074) 1 := by
  have := fin_natDiv n 1 (by decide)
  simpa using this

/-- The float64 nearest to a number written as a quotient of two naturals. -/
theorem fin_eval (q : ℚ) (n d : Nat) (hd : 0 < d) (h : q = (n : ℚ) / d) :
    Float64.fin q = Float64.ofUnits false (n * 2 ^ 1074) d := by
  rw [h, fin_natDiv n d hd]

/-- Go `x + y` is the float64 nearest to the exact sum. -/
theorem add_finite (a b : Int) (ha : binary64.isValue a.natAbs = true)
    (hb : binary64.isValue b.natAbs = true) :
    (Float64.finite a ha).add (Float64.finite b hb) =
      Float64.fin ((a : ℚ) / 2 ^ 1074 + (b : ℚ) / 2 ^ 1074) := by
  have e : (a : ℚ) / 2 ^ 1074 + (b : ℚ) / 2 ^ 1074 =
      ((a + b : Int) : ℚ) / ((2 ^ 1074 : Nat) : ℚ) := by
    push_cast; ring
  rw [e, fin_divInt _ _ (Nat.pow_pos (by decide))]
  simp only [Float64.add]
  exact ofUnits_congr _ _ _ _ _ (by decide) (Nat.pow_pos (by decide)) (by ring)

/-- Go `x * y` is the float64 nearest to the exact product. -/
theorem mul_finite (a b : Int) (ha : binary64.isValue a.natAbs = true)
    (hb : binary64.isValue b.natAbs = true) :
    (Float64.finite a ha).mul (Float64.finite b hb) =
      Float64.fin ((a : ℚ) / 2 ^ 1074 * ((b : ℚ) / 2 ^ 1074)) := by
  have e : (a : ℚ) / 2 ^ 1074 * ((b : ℚ) / 2 ^ 1074) =
      ((a * b : Int) : ℚ) / ((2 ^ 2148 : Nat) : ℚ) := by
    push_cast; ring
  rw [e, fin_divInt _ _ (Nat.pow_pos (by decide))]
  simp only [Float64.mul]
  refine ofUnits_congr _ _ _ _ _ (Nat.pow_pos (by decide)) (Nat.pow_pos (by decide)) ?_
  have : (2 : Nat) ^ 2148 = 2 ^ 1074 * 2 ^ 1074 := by rw [← pow_add]
  rw [this]; ring

theorem add_toRat (x y : Float64) (a b : ℚ) (hx : x.toRat = some a) (hy : y.toRat = some b) :
    x.add y = Float64.fin (a + b) := by
  cases x with
  | finite k h =>
    cases y with
    | finite l h1 =>
      simp only [Float64.toRat, Option.some.injEq] at hx hy
      rw [add_finite, hx, hy]
    | inf _ => simp [Float64.toRat] at hy
    | nan => simp [Float64.toRat] at hy
  | inf _ => simp [Float64.toRat] at hx
  | nan => simp [Float64.toRat] at hx

theorem mul_toRat (x y : Float64) (a b : ℚ) (hx : x.toRat = some a) (hy : y.toRat = some b) :
    x.mul y = Float64.fin (a * b) := by
  cases x with
  | finite k h =>
    cases y with
    | finite l h1 =>
      simp only [Float64.toRat, Option.some.injEq] at hx hy
      rw [mul_finite, hx, hy]
    | inf _ => simp [Float64.toRat] at hy
    | nan => simp [Float64.toRat] at hy
  | inf _ => simp [Float64.toRat] at hx
  | nan => simp [Float64.toRat] at hx

/-- Go `0 + x` is `x`. -/
theorem add_zero_left (x : Float64) : Float64.zero.add x = x := by
  cases x with
  | finite k h =>
    simp only [Float64.zero, Float64.add, Int.zero_add]
    exact ofUnits_isValue k h
  | inf _ => rfl
  | nan => rfl

theorem isValue_dyadic (n e : Nat) (hn : n < 2 ^ 53) (he : e ≤ 1074) :
    binary64.isValue (n * 2 ^ e) = true := by
  have hlt : n * 2 ^ e < 2 ^ (53 + e) := by
    rw [pow_add]
    exact Nat.mul_lt_mul_of_pos_right hn (Nat.pow_pos (by decide))
  have h1 : n * 2 ^ e < 2 ^ 2098 :=
    lt_of_lt_of_le hlt (Nat.pow_le_pow_right (by decide) (by omega))
  have h2 : n * 2 ^ e % 2 ^ (binary64.log2 (n * 2 ^ e) - 52) = 0 := by
    rcases Nat.eq_zero_or_pos n with h0 | hpos
    · simp [h0]
    · have hk : 0 < n * 2 ^ e := Nat.mul_pos hpos (Nat.pow_pos (by decide))
      have hl := log2_le _ hk
      have hlog : binary64.log2 (n * 2 ^ e) < 53 + e :=
        (Nat.pow_lt_pow_iff_right (by decide)).mp (lt_of_le_of_lt hl hlt)
      apply Nat.mod_eq_zero_of_dvd
      exact Dvd.dvd.mul_left (Nat.pow_dvd_pow 2 (by omega)) n
  simp only [binary64.isValue, Bool.and_eq_true, decide_eq_true_eq]
  exact ⟨h1, h2⟩

/-- A number `n / 2 ^ j` with `n` below `2 ^ 53` and `j` at most 1074 is a
float64: the nearest float64 is the number itself. -/
theorem fin_dyadic (q : ℚ) (n j : Nat) (hq : q * 2 ^ j = n) (hn : n < 2 ^ 53) (hj : j ≤ 1074) :
    (Float64.fin q).toRat = some q := by
  have h2 : (2 : ℚ) ^ j ≠ 0 := pow_ne_zero _ (by norm_num)
  have e : q = (n : ℚ) / ((2 ^ j : Nat) : ℚ) := by
    rw [← hq]; push_cast; field_simp
  have hv := isValue_dyadic n (1074 - j) hn (by omega)
  have hpow : (2 : Nat) ^ 1074 = 2 ^ j * 2 ^ (1074 - j) := by
    rw [← pow_add]; congr 1; omega
  have hv1 : binary64.isValue (Int.ofNat (n * 2 ^ (1074 - j))).natAbs = true := hv
  have h3 : Float64.fin q = Float64.finite (Int.ofNat (n * 2 ^ (1074 - j))) hv1 := by
    rw [e, fin_natDiv _ _ (Nat.pow_pos (by decide))]
    have := ofUnits_isValue (Int.ofNat (n * 2 ^ (1074 - j))) hv1
    rw [← this]
    have hneg : decide (Int.ofNat (n * 2 ^ (1074 - j)) < 0) = false := by
      simp only [decide_eq_false_iff_not, not_lt]
      exact Int.ofNat_nonneg _
    rw [hneg]
    refine ofUnits_congr _ _ _ _ _ (Nat.pow_pos (by decide)) (by decide) ?_
    show n * 2 ^ 1074 * 1 = n * 2 ^ (1074 - j) * 2 ^ j
    rw [hpow]; ring
  rw [h3]
  simp only [Float64.toRat, Option.some.injEq]
  rw [e]
  have hpq : (2 : ℚ) ^ 1074 = 2 ^ j * 2 ^ (1074 - j) := by
    rw [← pow_add]; congr 1; omega
  push_cast
  rw [hpq]
  field_simp
  ring

theorem log2_lt_of_lt (t e : Nat) (h : t < 2 ^ e) : binary64.log2 t < e ∨ t = 0 := by
  rcases Nat.eq_zero_or_pos t with h0 | hpos
  · exact Or.inr h0
  · exact Or.inl ((Nat.pow_lt_pow_iff_right (by decide)).mp (lt_of_le_of_lt (log2_le t hpos) h))

theorem log2_zero : binary64.log2 0 = 0 := by decide

/-- A number of at most 53 significant bits, below `2 ^ 2098`, is the size of
a float64. -/
theorem isValue_mul_pow (n e : Nat) (hn : n ≤ 2 ^ 53) (hlt : n * 2 ^ e < 2 ^ 2098) :
    binary64.isValue (n * 2 ^ e) = true := by
  have h2 : n * 2 ^ e % 2 ^ (binary64.log2 (n * 2 ^ e) - 52) = 0 := by
    rcases Nat.eq_zero_or_pos n with h0 | hpos
    · simp [h0]
    · have hk : 0 < n * 2 ^ e := Nat.mul_pos hpos (Nat.pow_pos (by decide))
      have hl := log2_le _ hk
      apply Nat.mod_eq_zero_of_dvd
      rcases Nat.lt_or_ge n (2 ^ 53) with hlt53 | hge
      · have hlt2 : n * 2 ^ e < 2 ^ (53 + e) := by
          rw [pow_add]
          exact Nat.mul_lt_mul_of_pos_right hlt53 (Nat.pow_pos (by decide))
        have hlog : binary64.log2 (n * 2 ^ e) < 53 + e :=
          (Nat.pow_lt_pow_iff_right (by decide)).mp (lt_of_le_of_lt hl hlt2)
        exact Dvd.dvd.mul_left (Nat.pow_dvd_pow 2 (by omega)) n
      · have hn53 : n = 2 ^ 53 := Nat.le_antisymm hn hge
        have hk2 : n * 2 ^ e = 2 ^ (53 + e) := by rw [hn53, pow_add]
        rw [hk2] at hl ⊢
        have hlog : binary64.log2 (2 ^ (53 + e)) ≤ 53 + e :=
          (Nat.pow_le_pow_iff_right (by decide)).mp hl
        exact Nat.pow_dvd_pow 2 (by omega)
  simp only [binary64.isValue, Bool.and_eq_true, decide_eq_true_eq]
  exact ⟨hlt, h2⟩

/-- The parts of a rounding within the range: the shift `s`, the quotient
`m` of at most 53 bits and the remainder `r`. -/
theorem roundUnits_parts (a d : Nat) (hd : 0 < d) (ht : a / d < 2 ^ 2098) :
    ∃ s m r, s ≤ 2045 ∧ m < 2 ^ 53 ∧ (0 < s → 2 ^ 52 ≤ m) ∧ r < d * 2 ^ s ∧
      a = m * (d * 2 ^ s) + r ∧
      binary64.roundUnits a d =
        (if d * 2 ^ s < 2 * r ∨ (2 * r = d * 2 ^ s ∧ m % 2 = 1) then m + 1 else m) * 2 ^ s := by
  have hD : ∀ s, 0 < d * 2 ^ s := fun s => Nat.mul_pos hd (Nat.pow_pos (by decide))
  refine ⟨binary64.log2 (a / d) - 52, a / (d * 2 ^ (binary64.log2 (a / d) - 52)),
    a % (d * 2 ^ (binary64.log2 (a / d) - 52)), ?_, ?_, ?_, Nat.mod_lt _ (hD _), ?_, ?_⟩
  · rcases log2_lt_of_lt _ _ ht with h | h
    · omega
    · rw [h, log2_zero]; decide
  · rw [← Nat.div_div_eq_div_mul]
    have hup := log2_lt (a / d) (lt_trans ht (by decide))
    rw [Nat.div_lt_iff_lt_mul (Nat.pow_pos (by decide)), ← pow_add]
    refine lt_of_lt_of_le hup (Nat.pow_le_pow_right (by decide) (by omega))
  · intro hs
    rw [← Nat.div_div_eq_div_mul, Nat.le_div_iff_mul_le (Nat.pow_pos (by decide)), ← pow_add]
    have hpos : 0 < a / d := by
      rcases Nat.eq_zero_or_pos (a / d) with h0 | h
      · rw [h0, log2_zero] at hs; omega
      · exact h
    have hl := log2_le _ hpos
    have e : 52 + (binary64.log2 (a / d) - 52) = binary64.log2 (a / d) := by omega
    rw [e]; exact hl
  · rw [Nat.mul_comm]; exact (Nat.div_add_mod _ _).symm
  · simp only [binary64.roundUnits, Nat.not_le.mpr ht, if_false]

/-- A rounded number is the size of a float64, or `2 ^ 2098`, which stands
for a result beyond the range. -/
theorem roundUnits_isValue_or (a d : Nat) (hd : 0 < d) :
    binary64.isValue (binary64.roundUnits a d) = true ∨ binary64.roundUnits a d = 2 ^ 2098 := by
  rcases Nat.lt_or_ge (a / d) (2 ^ 2098) with ht | ht
  · obtain ⟨s, m, r, hs, hm, -, -, -, hk⟩ := roundUnits_parts a d hd ht
    rw [hk]
    have hle : (if d * 2 ^ s < 2 * r ∨ (2 * r = d * 2 ^ s ∧ m % 2 = 1) then m + 1 else m) ≤
        2 ^ 53 := by
      split <;> omega
    generalize (if d * 2 ^ s < 2 * r ∨ (2 * r = d * 2 ^ s ∧ m % 2 = 1) then m + 1 else m) = n
      at hle ⊢
    have hbound : n * 2 ^ s ≤ 2 ^ 2098 := by
      calc n * 2 ^ s ≤ 2 ^ 53 * 2 ^ 2045 :=
            Nat.mul_le_mul hle (Nat.pow_le_pow_right (by decide) hs)
        _ = 2 ^ 2098 := by rw [← pow_add]
    rcases Nat.lt_or_ge (n * 2 ^ s) (2 ^ 2098) with h | h
    · exact Or.inl (isValue_mul_pow n s hle h)
    · exact Or.inr (Nat.le_antisymm hbound h)
  · right
    simp only [binary64.roundUnits, ht, if_true]

/-- The size of a float64 above `2 ^ (52 + s)` is a multiple of `2 ^ s`. -/
theorem isValue_dvd (k s : Nat) (hk : binary64.isValue k = true) (h : 2 ^ (52 + s) ≤ k) :
    2 ^ s ∣ k := by
  simp only [binary64.isValue, Bool.and_eq_true, decide_eq_true_eq] at hk
  have hup := log2_lt k (lt_trans hk.1 (by decide))
  have hlog : 52 + s < binary64.log2 k + 1 :=
    (Nat.pow_lt_pow_iff_right (by decide)).mp (lt_of_le_of_lt h hup)
  exact Nat.dvd_trans (Nat.pow_dvd_pow 2 (by omega)) (Nat.dvd_of_mod_eq_zero hk.2)

/-- Rounding gives a nearest value: no float64 is nearer to the quotient
`a / d` than the rounded number, the distances being counted in `d`-ths of a
unit. -/
theorem roundUnits_nearest (a d k : Nat) (hd : 0 < d) (ht : a / d < 2 ^ 2098)
    (hk : binary64.isValue k = true) :
    (binary64.roundUnits a d * d - a) + (a - binary64.roundUnits a d * d) ≤
      (k * d - a) + (a - k * d) := by
  obtain ⟨s, m, r, -, -, hm, hr, ha, hround⟩ := roundUnits_parts a d hd ht
  have hp : 0 < 2 ^ s := Nat.pow_pos (by decide)
  -- `k` is at most `m * 2 ^ s` or at least `(m + 1) * 2 ^ s`
  have hcase : k ≤ m * 2 ^ s ∨ (m + 1) * 2 ^ s ≤ k := by
    rcases Nat.lt_or_ge (m * 2 ^ s) k with hlt | hle
    · right
      rcases Nat.eq_zero_or_pos s with h0 | hs
      · subst h0; simp at hlt ⊢; omega
      · have h52 : 2 ^ (52 + s) ≤ k := by
          rw [pow_add]
          exact le_trans (Nat.mul_le_mul_right _ (hm hs)) hlt.le
        obtain ⟨c, hc⟩ := isValue_dvd k s hk h52
        rw [hc, Nat.mul_comm (2 ^ s) c] at hlt ⊢
        have : m < c := Nat.lt_of_mul_lt_mul_right hlt
        exact Nat.mul_le_mul_right _ this
    · exact Or.inl hle
  have e1 : m * 2 ^ s * d = m * (d * 2 ^ s) := by ring
  have e2 : (m + 1) * 2 ^ s * d = m * (d * 2 ^ s) + d * 2 ^ s := by ring
  rw [hround]
  rcases hcase with h | h
  · have hkd : k * d ≤ m * (d * 2 ^ s) := by
      rw [← e1]; exact Nat.mul_le_mul_right _ h
    split
    · rename_i hc
      rw [e2]; omega
    · rename_i hc
      rw [e1]; omega
  · have hkd : m * (d * 2 ^ s) + d * 2 ^ s ≤ k * d := by
      rw [← e2]; exact Nat.mul_le_mul_right _ h
    split
    · rename_i hc
      rw [e2]; omega
    · rename_i hc
      rw [e1]; omega

/-- Ties go to the even neighbour: when the quotient is halfway between two
neighbouring values, the rounded number is an even multiple of their
distance. -/
theorem roundUnits_tie (a d : Nat) (ht : a / d < 2 ^ 2098)
    (h : 2 * (a % (d * 2 ^ (binary64.log2 (a / d) - 52))) = d * 2 ^ (binary64.log2 (a / d) - 52)) :
    binary64.roundUnits a d / 2 ^ (binary64.log2 (a / d) - 52) % 2 = 0 := by
  have hp : 0 < 2 ^ (binary64.log2 (a / d) - 52) := Nat.pow_pos (by decide)
  simp only [binary64.roundUnits, Nat.not_le.mpr ht, if_false, h, lt_irrefl, false_or, true_and]
  rw [Nat.mul_div_cancel _ hp]
  split <;> omega

/-! ## Lemmas on the loop of `playSong` -/

theorem sameQueue_refl (s : System) : sameQueue s s := by
  simp [sameQueue]

theorem sameQueue_trans {s t u : System} (h1 : sameQueue s t) (h2 : sameQueue t u) :
    sameQueue s u := by
  obtain ⟨a1, a2, a3, a4, a5, a6, a7⟩ := h1
  obtain ⟨b1, b2, b3, b4, b5, b6, b7⟩ := h2
  exact ⟨b1.trans a1, b2.trans a2, b3.trans a3, b4.trans a4, b5.trans a5, b6.trans a6,
    b7.trans a7⟩

theorem sameQueue_command (c : Command) (s : System) : sameQueue s (c.run s) := by
  cases c
  · simp only [Command.run, pauseSlash]
    split <;> simp [sameQueue]
  · simp only [Command.run, resumeSlash]
    split <;> simp [sameQueue]
  · simp only [Command.run, nextSlash]
    split <;> simp [sameQueue]

theorem sameQueue_default {s t : System} {r : ReadResult} {ok : Bool}
    (h : playSong_default s r ok = some t) : sameQueue s t := by
  unfold playSong_default at h
  simp only at h
  split at h
  · cases h; exact sameQueue_refl s
  · split at h
    · cases h; simp [sameQueue]
    · cases h; simp [sameQueue]
    · split at h
      · cases h; simp [sameQueue]
      · split at h
        · cases h; simp [sameQueue]
        · split at h
          · cases h
          · rename_i vc hv
            cases h
            simp only [sameQueue] at hv ⊢
            simp [hv]

theorem sameQueue_loop : ∀ (evs : List PumpEvent) (s t : System),
    playSong_loop s evs = .returned t → sameQueue s t := by
  intro evs
  induction evs with
  | nil => intro s t h; simp [playSong_loop] at h
  | cons ev evs ih =>
    intro s t h
    cases ev with
    | done e =>
      simp only [playSong_loop, Outcome.returned.injEq] at h
      subst h; exact sameQueue_refl s
    | progress p =>
      simp only [playSong_loop] at h
      exact sameQueue_trans (by simp [sameQueue]) (ih _ _ h)
    | poll r ok =>
      simp only [playSong_loop] at h
      cases hd : playSong_default s r ok with
      | none => simp [hd] at h
      | some s1 =>
        simp only [hd] at h
        exact sameQueue_trans (sameQueue_default hd) (ih _ _ h)
    | command c =>
      simp only [playSong_loop] at h
      exact sameQueue_trans (sameQueue_command c s) (ih _ _ h)

theorem flagsOff_default {s t : System} {r : ReadResult} {ok : Bool}
    (h : playSong_default s r ok = some t) (hf : flagsOff s) : flagsOff t := by
  unfold playSong_default at h
  simp only at h
  split at h
  · cases h; exact hf
  · split at h
    · cases h; exact hf
    · cases h; exact hf
    · split at h
      · cases h; exact hf
      · split at h
        · cases h; exact hf
        · split at h
          · cases h
          · cases h; exact hf

theorem flagsOff_loop : ∀ (evs : List PumpEvent) (s t : System),
    (evs.all fun ev => !ev.isCommand) = true → flagsOff s →
    playSong_loop s evs = .returned t → flagsOff t := by
  intro evs
  induction evs with
  | nil => intro s t _ _ h; simp [playSong_loop] at h
  | cons ev evs ih =>
    intro s t hq hf h
    simp only [List.all_cons, Bool.and_eq_true] at hq
    cases ev with
    | done e =>
      simp only [playSong_loop, Outcome.returned.injEq] at h
      subst h; exact hf
    | progress p =>
      simp only [playSong_loop] at h
      exact ih _ _ hq.2 (by exact hf) h
    | poll r ok =>
      simp only [playSong_loop] at h
      cases hd : playSong_default s r ok with
      | none => simp [hd] at h
      | some s1 =>
        simp only [hd] at h
        exact ih _ _ hq.2 (flagsOff_default hd hf) h
    | command c => simp [PumpEvent.isCommand] at hq

theorem default_isSome (s : System) (r : ReadResult) (ok : Bool)
    (hv : s.bot.VoiceConn.isSome = true) : ∃ t, playSong_default s r ok = some t := by
  obtain ⟨vc, hvc⟩ := Option.isSome_iff_exists.mp hv
  unfold playSong_default
  simp only
  split
  · exact ⟨_, rfl⟩
  · split
    · exact ⟨_, rfl⟩
    · exact ⟨_, rfl⟩
    · split
      · exact ⟨_, rfl⟩
      · split
        · exact ⟨_, rfl⟩
        · simp only [hvc]
          exact ⟨_, rfl⟩

/-- With a voice connection, the loop returns as soon as the progress parser
reports completion. -/
theorem loop_returns : ∀ (evs : List PumpEvent) (s : System),
    s.bot.VoiceConn.isSome = true → evs.any PumpEvent.isDone = true →
    ∃ t, playSong_loop s evs = .returned t := by
  intro evs
  induction evs with
  | nil => intro s _ h; simp at h
  | cons ev evs ih =>
    intro s hv hd
    cases ev with
    | done e => exact ⟨s, by simp [playSong_loop]⟩
    | progress p =>
      simp only [List.any_cons, PumpEvent.isDone, Bool.false_or] at hd
      simp only [playSong_loop]
      exact ih _ (by simpa using hv) hd
    | poll r ok =>
      simp only [List.any_cons, PumpEvent.isDone, Bool.false_or] at hd
      obtain ⟨s1, h1⟩ := default_isSome s r ok hv
      simp only [playSong_loop, h1]
      exact ih _ (by rw [(sameQueue_default h1).2.2.2.2.2.1]; exact hv) hd
    | command c =>
      simp only [List.any_cons, PumpEvent.isDone, Bool.false_or] at hd
      simp only [playSong_loop]
      exact ih _ (by rw [(sameQueue_command c s).2.2.2.2.2.1]; exact hv) hd

/-! ## Lemmas on `playSong` and `playQueue` -/

/-- An undisturbed call of `playSong` returns, and leaves the queue, the
current slot and the two flags as they were. -/
theorem playSong_undisturbed (s : System) (song : Song) (env : PlayEnv)
    (hv : s.bot.VoiceConn.isSome = true) (hf : flagsOff s)
    (hu : env.undisturbed = true) :
    ∃ t err, playSong s song env = .returned (t, err) ∧ sameQueue s t ∧ flagsOff t := by
  obtain ⟨vc, hvc⟩ := Option.isSome_iff_exists.mp hv
  simp only [PlayEnv.undisturbed, Bool.and_eq_true] at hu
  unfold playSong
  cases hsp : env.spawn with
  | stdoutPipeError => exact ⟨s, _, rfl, sameQueue_refl s, hf⟩
  | stderrPipeError => exact ⟨s, _, rfl, sameQueue_refl s, hf⟩
  | startError => exact ⟨s, _, rfl, sameQueue_refl s, hf⟩
  | started =>
    simp only [hvc]
    cases henc : env.encoderOk with
    | false =>
      refine ⟨_, _, rfl, ?_, ?_⟩
      · simp [sameQueue, hvc]
      · exact hf
    | true =>
      simp only [Bool.not_true, Bool.false_eq_true, if_false]
      obtain ⟨s3, h3⟩ := loop_returns env.events
        { bot :=
            { VoiceConn := some { speaking := true, OpusSend := vc.OpusSend }
              Queue := s.bot.Queue
              CurrentlyPlaying := s.bot.CurrentlyPlaying
              CurrentSong := s.bot.CurrentSong
              CurrentSongMessageID := s.bot.CurrentSongMessageID
              CurrentSongChannelID := s.bot.CurrentSongChannelID
              PauseState :=
                { Paused := s.bot.PauseState.Paused
                  Pos := s.bot.PauseState.Pos
                  TotalPlayTime := s.bot.PauseState.TotalPlayTime
                  SkipReq := s.bot.PauseState.SkipReq
                  Cmd := some s.procs.length } }
          procs := s.procs ++
            [{ startPos := playSong_startPos s.bot.PauseState, input := song.StreamURL,
               killed := false }]
          loops := s.loops
          played := s.played
          reads := s.reads
          encoded := s.encoded } rfl hu.2
      have hsq := sameQueue_loop _ _ _ h3
      have hfl := flagsOff_loop _ _ _ hu.1 (by exact hf) h3
      simp only [h3]
      have hv3 : s3.bot.VoiceConn.isSome = true := by rw [hsq.2.2.2.2.2.1]; rfl
      obtain ⟨vc3, hvc3⟩ := Option.isSome_iff_exists.mp hv3
      simp only [playSong_cleanup, hvc3]
      refine ⟨_, _, rfl, ?_, ?_⟩
      · obtain ⟨a1, a2, a3, a4, a5, a6, a7⟩ := hsq
        simp only [sameQueue] at a1 a2 a3 a4 a5 a6 a7 ⊢
        simp [a1, a2, a3, a4, a5, a7, hvc]
      · exact hfl

/-- The queue after enqueuing a list of songs one by one. -/
theorem foldl_enqueue (ts : List Song) : ∀ b : MusicBot,
    ts.foldl enqueue b = { b with Queue := b.Queue ++ ts } := by
  induction ts with
  | nil => intro b; simp
  | cons t ts ih => intro b; simp [ih, enqueue]

/-- From the head of the loop with an empty current slot and both flags off,
undisturbed sessions play the pending songs in order and the loop ends. -/
theorem playQueue_drains : ∀ (ts : List Song) (envs : List IterEnv) (s : System),
    s.bot.Queue = ts → s.bot.CurrentSong = none → flagsOff s →
    s.bot.VoiceConn.isSome = true → envs.length = ts.length →
    (∀ e ∈ envs, e.play.undisturbed = true) →
    ∃ t, playQueue s envs = .returned t ∧ t.played = s.played ++ ts ∧
      t.bot.Queue = [] ∧ t.bot.CurrentSong = none := by
  intro ts
  induction ts with
  | nil =>
    intro envs s hq hc _ _ hlen _
    have hnil : envs = [] := List.length_eq_zero.mp hlen
    subst hnil
    refine ⟨playQueue_exit s, ?_, ?_, ?_, ?_⟩
    · simp [playQueue, playQueue_pop, hq, hc]
    · simp [playQueue_exit]
    · simp [playQueue_exit, hq]
    · simp [playQueue_exit, hc]
  | cons a ts ih =>
    intro envs s hq hc hf hv hlen hu
    cases envs with
    | nil => simp at hlen
    | cons env rest =>
      have hpop : playQueue_pop s.bot =
          some (a, { s.bot with Queue := ts, CurrentSong := some a }) := by
        simp [playQueue_pop, hq, hc]
      obtain ⟨s2, err, h2, hsq, hf2⟩ := playSong_undisturbed
        { s with bot := { s.bot with Queue := ts, CurrentSong := some a },
                 played := s.played ++ [a] } a env.play (by exact hv) (by exact hf)
        (hu env (List.mem_cons_self _ _))
      obtain ⟨a1, a2, a3, a4, a5, a6, a7⟩ := hsq
      simp only at a1 a2 a3 a6
      have hafter : playQueue_afterSong s2 = { s2 with bot.CurrentSong := none } := by
        simp [playQueue_afterSong, hf2.1, hf2.2]
      have hwait : playQueue_wait (playQueue_afterSong s2) env.whilePaused =
          .returned { s2 with bot.CurrentSong := none } := by
        rw [hafter]
        cases env.whilePaused <;> simp [playQueue_wait, hf2.1]
      obtain ⟨t, ht, hp, hq', hc'⟩ := ih rest { s2 with bot.CurrentSong := none }
        (by simpa using a1) rfl (by exact hf2) (by simpa using a6.trans hv)
        (by simpa using hlen) (fun e he => hu e (List.mem_cons_of_mem _ he))
      refine ⟨t, ?_, ?_, hq', hc'⟩
      · simp only [playQueue, hpop, h2, hwait]
        exact ht
      · rw [hp]
        simp [a3]

/-- In `playSong`'s loop a requested skip stays requested. -/
theorem skipReq_loop : ∀ (evs : List PumpEvent) (s t : System),
    s.bot.PauseState.SkipReq = true → playSong_loop s evs = .returned t →
    t.bot.PauseState.SkipReq = true := by
  intro evs
  induction evs with
  | nil => intro s t _ h; simp [playSong_loop] at h
  | cons ev evs ih =>
    intro s t hs h
    cases ev with
    | done e =>
      simp only [playSong_loop, Outcome.returned.injEq] at h
      subst h; exact hs
    | progress p =>
      simp only [playSong_loop] at h
      exact ih _ _ (by exact hs) h
    | poll r ok =>
      simp only [playSong_loop, playSong_default, hs, Bool.or_true, if_true] at h
      exact ih _ _ hs h
    | command c =>
      simp only [playSong_loop] at h
      refine ih _ _ ?_ h
      cases c
      · simp only [Command.run, pauseSlash]
        split <;> simp [hs]
      · simp only [Command.run, resumeSlash]
        split <;> simp [hs]
      · simp only [Command.run, nextSlash]
        split <;> simp

/-- Killing a process changes the arguments of none. -/
theorem args_Process_Kill : ∀ (ps : List Proc) (h : Nat),
    (Process_Kill ps h).map Proc.args = ps.map Proc.args := by
  intro ps
  induction ps with
  | nil => intro h; rfl
  | cons p ps ih =>
    intro h
    cases h with
    | zero => simp [Process_Kill, Proc.args]
    | succ h => simp [Process_Kill, ih]

theorem args_command (c : Command) (s : System) :
    (c.run s).procs.map Proc.args = s.procs.map Proc.args := by
  cases c
  · simp only [Command.run, pauseSlash]
    split <;> rfl
  · simp only [Command.run, resumeSlash]
    split <;> rfl
  · simp only [Command.run, nextSlash]
    split
    · simp [args_Process_Kill]
    · rfl

theorem args_default {s t : System} {r : ReadResult} {ok : Bool}
    (h : playSong_default s r ok = some t) : t.procs = s.procs := by
  unfold playSong_default at h
  simp only at h
  split at h
  · cases h; rfl
  · split at h
    · cases h; rfl
    · cases h; rfl
    · split at h
      · cases h; rfl
      · split at h
        · cases h; rfl
        · split at h
          · cases h
          · cases h; rfl

/-- The loop of `playSong` starts no process and changes no argument. -/
theorem args_loop : ∀ (evs : List PumpEvent) (s t : System),
    playSong_loop s evs = .returned t → t.procs.map Proc.args = s.procs.map Proc.args := by
  intro evs
  induction evs with
  | nil => intro s t h; simp [playSong_loop] at h
  | cons ev evs ih =>
    intro s t h
    cases ev with
    | done e =>
      simp only [playSong_loop, Outcome.returned.injEq] at h
      subst h; rfl
    | progress p =>
      simp only [playSong_loop] at h
      have hp := ih _ _ h
      exact hp
    | poll r ok =>
      simp only [playSong_loop] at h
      cases hd : playSong_default s r ok with
      | none => simp [hd] at h
      | some s1 =>
        simp only [hd] at h
        rw [ih _ _ h, args_default hd]
    | command c =>
      simp only [playSong_loop] at h
      rw [ih _ _ h, args_command]

/-- A call of `playSong` that starts its process and returns has appended
exactly one process, started at the offset computed on entry. -/
theorem playSong_spawns (s t : System) (song : Song) (env : PlayEnv) (err : Option PlayError)
    (hspawn : env.spawn = .started) (hret : playSong s song env = .returned (t, err)) :
    t.procs.map Proc.args =
      s.procs.map Proc.args ++ [(playSong_startPos s.bot.PauseState, song.StreamURL)] := by
  unfold playSong at hret
  simp only [hspawn] at hret
  cases hv : s.bot.VoiceConn with
  | none => simp [hv] at hret
  | some vc =>
    simp only [hv] at hret
    cases henc : env.encoderOk with
    | false =>
      simp only [henc, Bool.not_false, if_true, Outcome.returned.injEq, Prod.mk.injEq] at hret
      rw [← hret.1]
      simp [Proc.args]
    | true =>
      simp only [henc, Bool.not_true, Bool.false_eq_true, if_false] at hret
      generalize hl : playSong_loop _ env.events = o at hret
      cases o with
      | blocked => simp at hret
      | panicked => simp at hret
      | returned s3 =>
        have ha := args_loop _ _ _ hl
        simp only [playSong_cleanup] at hret
        cases hv3 : s3.bot.VoiceConn with
        | none => simp [hv3] at hret
        | some vc3 =>
          simp only [hv3, Outcome.returned.injEq, Prod.mk.injEq] at hret
          rw [← hret.1]
          simp only [args_Process_Kill]
          rw [ha]
          simp [Proc.args]

/-- After a natural end (no skip requested, not paused) the step after the
track clears the current slot and nothing else: the position stays, and so
the next call of `playSong` starts at it unless it is 0. -/
theorem afterSong_natural (s : System) (hskip : s.bot.PauseState.SkipReq = false)
    (hpause : s.bot.PauseState.Paused = false) :
    playQueue_afterSong s = { s with bot.CurrentSong := none } ∧
    playSong_startPos (playQueue_afterSong s).bot.PauseState =
      if s.bot.PauseState.Pos.isZero then Float64.zero
      else s.bot.PauseState.TotalPlayTime.add s.bot.PauseState.Pos := by
  have h : playQueue_afterSong s = { s with bot.CurrentSong := none } := by
    simp [playQueue_afterSong, hskip, hpause]
  rw [h]
  exact ⟨rfl, rfl⟩

/-- What `stopSlash` does to the playback state, for every state: only the
handle is cleared. -/
theorem stopSlash_pauseState (s : System) :
    (stopSlash s).bot.PauseState = { s.bot.PauseState with Cmd := none } := by
  rcases s with ⟨⟨vc, q, cp, cs, m, c, ⟨pa, po, tp, sk, cm⟩⟩, pr, lo, pl, en⟩
  simp only [stopSlash]
  split <;> split <;> split <;> simp_all

/-- `playSong` is its start, its loop and its cleanup. -/
theorem playSong_of_enter (s : System) (song : Song) (env : PlayEnv)
    (hs : env.spawn = .started) (he : env.encoderOk = true) :
    playSong s song env =
      match playSong_enter s song with
      | none => .panicked
      | some (s2, h) =>
        match playSong_loop s2 env.events with
        | .returned s3 =>
          match playSong_cleanup s3 h with
          | .returned s4 => .returned (s4, none)
          | .blocked => .blocked
          | .panicked => .panicked
        | .blocked => .blocked
        | .panicked => .panicked := by
  unfold playSong playSong_enter
  simp only [hs, he]
  cases hv : s.bot.VoiceConn with
  | none => simp
  | some vc => rfl

/-! ## Lemmas on the progress tracker -/

/-- The characters `isDigit` accepts are the ten digits. -/
theorem digit_cases (c : Char) (h : c.isDigit = true) :
    c ∈ ['0', '1', '2', '3', '4', '5', '6', '7', '8', '9'] := by
  have hc : Char.ofNat c.toNat = c := Char.ofNat_toNat c
  simp only [Char.isDigit, Bool.and_eq_true, decide_eq_true_eq] at h
  have h1 : 48 ≤ c.toNat := h.1
  have h2 : c.toNat ≤ 57 := h.2
  rw [← hc]
  interval_cases c.toNat <;> decide

/-- What holds of the ten digits holds of every character `isDigit` accepts. -/
theorem digit_all (P : Char → Prop)
    (h : ∀ c ∈ ['0', '1', '2', '3', '4', '5', '6', '7', '8', '9'], P c)
    (c : Char) (hc : c.isDigit = true) : P c :=
  h c (digit_cases c hc)

theorem Split_ne_nil : ∀ (s : List Char) (sep : Char), strings.Split s sep ≠ [] := by
  intro s sep
  induction s with
  | nil => simp [strings.Split]
  | cons c cs ih =>
    simp only [strings.Split]
    split
    · simp
    · split <;> simp

theorem Split_no_sep : ∀ (a : List Char) (sep : Char), sep ∉ a → strings.Split a sep = [a] := by
  intro a sep
  induction a with
  | nil => intro _; rfl
  | cons c cs ih =>
    intro h
    simp only [List.mem_cons, not_or] at h
    have hc : c ≠ sep := fun e => h.1 e.symm
    simp [strings.Split, hc, ih h.2]

theorem Split_append : ∀ (a b : List Char) (sep : Char), sep ∉ a →
    strings.Split (a ++ sep :: b) sep = a :: strings.Split b sep := by
  intro a b sep
  induction a with
  | nil => intro _; simp [strings.Split]
  | cons c cs ih =>
    intro h
    simp only [List.mem_cons, not_or] at h
    have hc : c ≠ sep := fun e => h.1 e.symm
    simp [strings.Split, hc, ih h.2]

theorem SkipSpace_digit (c : Char) (cs : List Char) (hc : c.isDigit = true) :
    fmt.SkipSpace (c :: cs) = some (c :: cs) := by
  have h1 : c ≠ '\r' := digit_all (fun c => c ≠ '\r') (by decide) c hc
  have h2 : c ≠ '\n' := digit_all (fun c => c ≠ '\n') (by decide) c hc
  have h3 : fmt.isSpace c = false := digit_all (fun c => fmt.isSpace c = false) (by decide) c hc
  simp [fmt.SkipSpace, h1, h2, h3]

theorem acceptAll_digits : ∀ (ds buf tail : List Char), (∀ c ∈ ds, c.isDigit = true) →
    (∀ c t, tail = c :: t → c ∉ fmt.decimalDigits_) →
    fmt.acceptAll fmt.decimalDigits_ buf (ds ++ tail) = (buf ++ ds, tail) := by
  intro ds
  induction ds with
  | nil =>
    intro buf tail _ ht
    cases tail with
    | nil => simp [fmt.acceptAll]
    | cons c t => simp [fmt.acceptAll, ht c t rfl]
  | cons d ds ih =>
    intro buf tail hd ht
    have hmem : d ∈ fmt.decimalDigits_ :=
      digit_all (fun c => c ∈ fmt.decimalDigits_) (by decide) d (hd d (List.mem_cons_self _ _))
    rw [List.cons_append, fmt.acceptAll, if_pos hmem,
      ih _ _ (fun c hc => hd c (List.mem_cons_of_mem _ hc)) ht]
    simp

/-- The second half of `floatToken` depends on its input only through the
result of its digit loop. -/
theorem floatToken_number_congr (b r b1 r1 : List Char)
    (h : fmt.acceptAll fmt.decimalDigits_ b r = fmt.acceptAll fmt.decimalDigits_ b1 r1) :
    fmt.floatToken_number false b r = fmt.floatToken_number false b1 r1 := by
  simp only [fmt.floatToken_number, Bool.false_eq_true, if_false, h]

/-- On a text that starts with a digit not followed by an x, `floatToken`
takes no NaN, sign, Inf or 0x, and reads a decimal number. -/
theorem floatToken_digit (d : Char) (rest : List Char) (hd : d.isDigit = true)
    (hx : ∀ c t, rest = c :: t → c ∉ ['x', 'X']) :
    fmt.floatToken (d :: rest) = fmt.floatToken_number false [d] rest := by
  have n1 : d ∉ ['n', 'N'] := digit_all (fun c => c ∉ ['n', 'N']) (by decide) d hd
  have n2 : d ∉ ['+', '-'] := digit_all (fun c => c ∉ ['+', '-']) (by decide) d hd
  have n3 : d ∉ ['i', 'I'] := digit_all (fun c => c ∉ ['i', 'I']) (by decide) d hd
  have n4 : d ∈ fmt.decimalDigits_ :=
    digit_all (fun c => c ∈ fmt.decimalDigits_) (by decide) d hd
  have hnan : fmt.acceptSeq [['n', 'N'], ['a', 'A'], ['n', 'N']] [] (d :: rest) =
      (false, [], d :: rest) := by
    rw [fmt.acceptSeq, if_neg n1]
  have hsign : fmt.acceptSeq [['+', '-']] [] (d :: rest) = (false, [], d :: rest) := by
    rw [fmt.acceptSeq, if_neg n2]
  have hinf : fmt.acceptSeq [['i', 'I'], ['n', 'N'], ['f', 'F']] [] (d :: rest) =
      (false, [], d :: rest) := by
    rw [fmt.acceptSeq, if_neg n3]
  simp only [fmt.floatToken, hnan, hsign, hinf]
  by_cases h0 : d = '0'
  · subst h0
    cases rest with
    | nil => simp only [fmt.acceptSeq, List.mem_singleton, if_true, List.nil_append]
    | cons c t =>
      have := hx c t rfl
      simp only [fmt.acceptSeq, List.mem_singleton, if_true, List.nil_append, if_neg this]
  · have h0' : d ∉ ['0'] := by simpa using h0
    rw [fmt.acceptSeq, if_neg h0']
    refine floatToken_number_congr _ _ _ _ ?_
    rw [fmt.acceptAll, if_pos n4]
    rfl

/-- `floatToken` takes the whole of a seconds field. -/
theorem floatToken_seconds (whole : List Char) (fraction : Option (List Char))
    (hw : isDecimal whole) (hf : ∀ f, fraction = some f → ∀ c ∈ f, c.isDigit = true) :
    fmt.floatToken (secondsText whole fraction) = (secondsText whole fraction, []) := by
  obtain ⟨hne, hdig⟩ := hw
  cases whole with
  | nil => exact absurd rfl hne
  | cons d ds =>
    have hd : d.isDigit = true := hdig d (List.mem_cons_self _ _)
    have hds : ∀ c ∈ ds, c.isDigit = true := fun c hc => hdig c (List.mem_cons_of_mem _ hc)
    cases fraction with
    | none =>
      have hx : ∀ c t, ds = c :: t → c ∉ ['x', 'X'] := by
        intro c t h
        exact digit_all (fun c => c ∉ ['x', 'X']) (by decide) c (hds c (by simp [h]))
      have hloop := acceptAll_digits ds [d] [] hds (by simp)
      simp only [List.append_nil] at hloop
      simp only [secondsText]
      rw [floatToken_digit d ds hd hx]
      simp [fmt.floatToken_number, hloop, fmt.acceptSeq]
    | some f =>
      have hx : ∀ c t, ds ++ '.' :: f = c :: t → c ∉ ['x', 'X'] := by
        intro c t h
        cases ds with
        | nil =>
          simp only [List.nil_append, List.cons.injEq] at h
          rw [← h.1]; decide
        | cons e es =>
          simp only [List.cons_append, List.cons.injEq] at h
          rw [← h.1]
          exact digit_all (fun c => c ∉ ['x', 'X']) (by decide) e (hds e (List.mem_cons_self _ _))
      have hloop := acceptAll_digits ds [d] ('.' :: f) hds
        (by intro c t h; simp only [List.cons.injEq] at h; rw [← h.1]; decide)
      have hfl := acceptAll_digits f (d :: (ds ++ ['.'])) [] (hf f rfl) (by simp)
      simp only [List.append_nil] at hfl
      simp only [secondsText, List.cons_append]
      rw [floatToken_digit d _ hd hx]
      simp [fmt.floatToken_number, hloop, fmt.acceptSeq, hfl]

/-- The digits of a number read after the value `m`. -/
theorem foldl_decimalValue : ∀ (ds : List Char) (m : Nat),
    ds.foldl (fun n c => n * 10 + (c.toNat - 48)) m = m * 10 ^ ds.length + decimalValue ds := by
  intro ds
  induction ds with
  | nil => intro m; simp [decimalValue]
  | cons d ds ih =>
    intro m
    simp only [List.foldl_cons, List.length_cons, decimalValue]
    rw [ih, ih (0 * 10 + (d.toNat - 48))]
    ring

theorem decimalValue_zeros (n : Nat) : decimalValue (List.replicate n '0') = 0 := by
  induction n with
  | zero => rfl
  | succ n ih =>
    have h0 : 0 * 10 + ('0'.toNat - 48) = 0 := by decide
    simp only [decimalValue, List.replicate_succ, List.foldl_cons, h0] at ih ⊢
    exact ih

/-- The number written as a 1 followed by `n` zeros. -/
theorem decimalValue_one_zeros (n : Nat) :
    decimalValue ('1' :: List.replicate n '0') = 10 ^ n := by
  have h1 : 0 * 10 + ('1'.toNat - 48) = 1 := by decide
  simp only [decimalValue, List.foldl_cons, h1]
  rw [foldl_decimalValue, decimalValue_zeros, List.length_replicate]
  simp

theorem digitLoop_digit (d : Char) (cs : List Char) (D : strconv.Digits)
    (hd : d.isDigit = true) :
    strconv.digitLoop false (d :: cs) D = strconv.digitLoop false cs (D.push 10 (d.toNat - 48)) := by
  have h1 : d ≠ '_' := digit_all (fun c => c ≠ '_') (by decide) d hd
  have h2 : d ≠ '.' := digit_all (fun c => c ≠ '.') (by decide) d hd
  simp [strconv.digitLoop, h1, h2, hd]

theorem digitLoop_point (cs : List Char) (m fr : Nat) (sg u : Bool) :
    strconv.digitLoop false ('.' :: cs) ⟨m, fr, false, sg, u⟩ =
      strconv.digitLoop false cs ⟨m, fr, true, sg, u⟩ := by
  have hdot : ('.' : Char) ≠ '_' := by decide
  simp [strconv.digitLoop, hdot]

/-- The digit loop of `readFloat` over a run of decimal digits. -/
theorem digitLoop_digits : ∀ (ds : List Char), (∀ c ∈ ds, c.isDigit = true) →
    ∀ (tail : List Char) (m fr : Nat) (sd sg : Bool),
    strconv.digitLoop false (ds ++ tail) ⟨m, fr, sd, sg, false⟩ =
      strconv.digitLoop false tail
        ⟨ds.foldl (fun n c => n * 10 + (c.toNat - 48)) m, if sd then fr + ds.length else fr, sd,
          sg || !ds.isEmpty, false⟩ := by
  intro ds
  induction ds with
  | nil => intro _ tail m fr sd sg; simp
  | cons d ds ih =>
    intro hd tail m fr sd sg
    have hdd : d.isDigit = true := hd d (List.mem_cons_self _ _)
    rw [List.cons_append, digitLoop_digit d _ _ hdd]
    simp only [strconv.Digits.push]
    rw [ih (fun c hc => hd c (List.mem_cons_of_mem _ hc))]
    cases sd <;> simp [Nat.add_assoc, Nat.add_comm 1]

/-- `readFloat` reads a seconds field whole and returns the number it
denotes. -/
theorem readFloat_seconds (whole : List Char) (fraction : Option (List Char))
    (hw : isDecimal whole) (hf : ∀ f, fraction = some f → ∀ c ∈ f, c.isDigit = true) :
    strconv.readFloat (secondsText whole fraction) = some (secondsValue whole fraction, []) := by
  obtain ⟨hne, hdig⟩ := hw
  cases whole with
  | nil => exact absurd rfl hne
  | cons d ds =>
    have hd : d.isDigit = true := hdig d (List.mem_cons_self _ _)
    have hds : ∀ c ∈ ds, c.isDigit = true := fun c hc => hdig c (List.mem_cons_of_mem _ hc)
    have p1 : d ≠ '+' := digit_all (fun c => c ≠ '+') (by decide) d hd
    have p2 : d ≠ '-' := digit_all (fun c => c ≠ '-') (by decide) d hd
    have hsign : ∀ rest, strconv.takeSign (d :: rest) = (false, d :: rest) := by
      intro rest
      simp [strconv.takeSign, p1, p2]
    have hhex : ∀ rest, (∀ c t, rest = c :: t → c ∉ ['x', 'X']) →
        strconv.takeHexPrefix (d :: rest) = (false, d :: rest) := by
      intro rest hx
      match rest with
      | [] => rfl
      | [x] => rfl
      | x :: c :: r =>
        have := hx x (c :: r) rfl
        simp only [List.mem_cons, List.mem_singleton, not_or, List.not_mem_nil, or_false] at this
        simp [strconv.takeHexPrefix, this.1, this.2]
    cases fraction with
    | none =>
      have hx : ∀ c t, ds = c :: t → c ∉ ['x', 'X'] := by
        intro c t h
        exact digit_all (fun c => c ∉ ['x', 'X']) (by decide) c (hds c (by simp [h]))
      have hloop := digitLoop_digits (d :: ds) hdig [] 0 0 false false
      rw [List.append_nil, foldl_decimalValue] at hloop
      simp only [secondsText, secondsValue, strconv.readFloat, hsign, hhex ds hx, hloop]
      simp [strconv.digitLoop, strconv.readExponent, strconv.floatValue]
    | some f =>
      have hx : ∀ c t, ds ++ '.' :: f = c :: t → c ∉ ['x', 'X'] := by
        intro c t h
        cases ds with
        | nil =>
          simp only [List.nil_append, List.cons.injEq] at h
          rw [← h.1]; decide
        | cons e es =>
          simp only [List.cons_append, List.cons.injEq] at h
          rw [← h.1]
          exact digit_all (fun c => c ∉ ['x', 'X']) (by decide) e (hds e (List.mem_cons_self _ _))
      have hloop : strconv.digitLoop false (d :: (ds ++ '.' :: f)) ⟨0, 0, false, false, false⟩ =
          (⟨decimalValue (d :: ds) * 10 ^ f.length + decimalValue f, f.length, true, true,
            false⟩, []) := by
        rw [← List.cons_append, digitLoop_digits (d :: ds) hdig, digitLoop_point]
        have h2 := digitLoop_digits f (hf f rfl) []
          ((d :: ds).foldl (fun n c => n * 10 + (c.toNat - 48)) 0) 0 true true
        rw [List.append_nil] at h2
        simp only [Bool.false_eq_true, if_false, Bool.false_or, List.isEmpty_cons, Bool.not_false]
        rw [h2, foldl_decimalValue, foldl_decimalValue]
        simp [strconv.digitLoop]
      simp only [secondsText, secondsValue, strconv.readFloat, List.cons_append, hsign,
        hhex _ hx, hloop]
      simp [strconv.readExponent, strconv.floatValue]
      field_simp

/-- A seconds field is made of digits and at most one point. -/
theorem secondsText_chars (whole : List Char) (fraction : Option (List Char))
    (hw : isDecimal whole) (hf : ∀ f, fraction = some f → ∀ c ∈ f, c.isDigit = true) :
    ∀ c ∈ secondsText whole fraction, c.isDigit = true ∨ c = '.' := by
  intro c hc
  cases fraction with
  | none => exact Or.inl (hw.2 c hc)
  | some f =>
    simp only [secondsText, List.mem_append, List.mem_cons] at hc
    rcases hc with h | h | h
    · exact Or.inl (hw.2 c h)
    · exact Or.inr h
    · exact Or.inl (hf f rfl c h)

/-- `Sscanf` with `%f` reads a seconds field as the float64 nearest to the
number it denotes, and fails when that number is beyond the range. -/
theorem Sscanf_seconds (whole : List Char) (fraction : Option (List Char))
    (hw : isDecimal whole) (hf : ∀ f, fraction = some f → ∀ c ∈ f, c.isDigit = true) :
    fmt.Sscanf_f (secondsText whole fraction) =
      strconv.atof64 (secondsValue whole fraction) := by
  have hchars := secondsText_chars whole fraction hw hf
  have htok := floatToken_seconds whole fraction hw hf
  have hread := readFloat_seconds whole fraction hw hf
  obtain ⟨d, rest, htext, hd⟩ : ∃ d rest, secondsText whole fraction = d :: rest ∧
      d.isDigit = true := by
    obtain ⟨hne, hdig⟩ := hw
    cases whole with
    | nil => exact absurd rfl hne
    | cons d ds =>
      cases fraction with
      | none => exact ⟨d, ds, rfl, hdig d (List.mem_cons_self _ _)⟩
      | some f => exact ⟨d, ds ++ '.' :: f, rfl, hdig d (List.mem_cons_self _ _)⟩
  have hp : 'p' ∉ secondsText whole fraction := by
    intro h
    rcases hchars 'p' h with h1 | h1
    · exact absurd h1 (by decide)
    · exact absurd h1 (by decide)
  have q1 : d ≠ '+' := digit_all (fun c => c ≠ '+') (by decide) d hd
  have q2 : d ≠ '-' := digit_all (fun c => c ≠ '-') (by decide) d hd
  have q3 : d ≠ 'i' := digit_all (fun c => c ≠ 'i') (by decide) d hd
  have q4 : d ≠ 'I' := digit_all (fun c => c ≠ 'I') (by decide) d hd
  have q5 : d ≠ 'n' := digit_all (fun c => c ≠ 'n') (by decide) d hd
  have q6 : d ≠ 'N' := digit_all (fun c => c ≠ 'N') (by decide) d hd
  have hspecial : strconv.special (secondsText whole fraction) = none := by
    rw [htext]
    simp [strconv.special, q1, q2, q3, q4, q5, q6]
  have hparse : strconv.ParseFloat (secondsText whole fraction) =
      strconv.atof64 (secondsValue whole fraction) := by
    simp only [strconv.ParseFloat, hspecial, hread]
  have hconv : fmt.convertFloat (secondsText whole fraction) =
      strconv.atof64 (secondsValue whole fraction) := by
    simp only [fmt.convertFloat, hp, false_and, if_false, hparse]
  have hskip : fmt.SkipSpace (d :: rest) = some (d :: rest) := SkipSpace_digit d rest hd
  simp only [fmt.Sscanf_f]
  rw [htext, hskip]
  simp only [hskip]
  rw [← htext, htok, hconv]

/-- `Sscanf` with `%f` reads a decimal number as the float64 nearest to its
value, and fails when the value is beyond the range. -/
theorem Sscanf_decimal (ds : List Char) (h : isDecimal ds) :
    fmt.Sscanf_f ds = strconv.atof64 (decimalValue ds) :=
  Sscanf_seconds ds none h (fun f hf => by cases hf)

theorem colon_not_mem_decimal (ds : List Char) (h : ∀ c ∈ ds, c.isDigit = true) : ':' ∉ ds :=
  fun hc => absurd (h ':' hc) (by decide)

theorem colon_not_mem_seconds (whole : List Char) (fraction : Option (List Char))
    (hw : isDecimal whole) (hf : ∀ f, fraction = some f → ∀ c ∈ f, c.isDigit = true) :
    ':' ∉ secondsText whole fraction := by
  intro h
  rcases secondsText_chars whole fraction hw hf ':' h with h1 | h1
  · exact absurd h1 (by decide)
  · exact absurd h1 (by decide)

/-- A line `out_time=H:M:S` with decimal fields sends the float64 result of
`hours*3600 + minutes*60 + seconds` on the scanned fields. -/
theorem line_statusLine (H M whole : List Char) (fraction : Option (List Char))
    (hH : isDecimal H) (hM : isDecimal M) (hw : isDecimal whole)
    (hf : ∀ f, fraction = some f → ∀ c ∈ f, c.isDigit = true) :
    parseFFmpegProgress_line (statusLine H M whole fraction) =
      some (((scanned (decimalValue H)).mul (.fin 3600)).add
        ((scanned (decimalValue M)).mul (.fin 60)) |>.add
        (scanned (secondsValue whole fraction))) := by
  have hpre : strings.HasPrefix (statusLine H M whole fraction) outTimeKey = true := by
    simp [strings.HasPrefix, statusLine, outTimeKey]
  have htrim : strings.TrimPrefix (statusLine H M whole fraction) outTimeKey =
      H ++ ':' :: (M ++ ':' :: secondsText whole fraction) := by
    rw [strings.TrimPrefix, if_pos hpre]
    simp [statusLine, outTimeKey]
  have hsplit : strings.Split (H ++ ':' :: (M ++ ':' :: secondsText whole fraction)) ':' =
      [H, M, secondsText whole fraction] := by
    rw [Split_append _ _ _ (colon_not_mem_decimal H hH.2),
      Split_append _ _ _ (colon_not_mem_decimal M hM.2),
      Split_no_sep _ _ (colon_not_mem_seconds whole fraction hw hf)]
  simp only [parseFFmpegProgress_line, hpre, if_true, htrim, hsplit, List.length_cons,
    List.length_nil, List.getD_cons_zero, List.getD_cons_succ, Sscanf_decimal H hH,
    Sscanf_decimal M hM, Sscanf_seconds whole fraction hw hf, scanned]

theorem newline_not_mem_statusLine (H M whole : List Char) (fraction : Option (List Char))
    (hH : isDecimal H) (hM : isDecimal M) (hw : isDecimal whole)
    (hf : ∀ f, fraction = some f → ∀ c ∈ f, c.isDigit = true) :
    '\n' ∉ statusLine H M whole fraction := by
  intro h
  simp only [statusLine, List.mem_append, List.mem_cons] at h
  rcases h with ((h | h) | h | h) | h | h
  · exact absurd h (by decide)
  · exact absurd (hH.2 _ h) (by decide)
  · exact absurd h (by decide)
  · exact absurd (hM.2 _ h) (by decide)
  · exact absurd h (by decide)
  · rcases secondsText_chars whole fraction hw hf _ h with h1 | h1
    · exact absurd h1 (by decide)
    · exact absurd h1 (by decide)

/-! ## Lemmas on the conversion loop of the encoder -/

theorem sample_value (lo hi : Nat) (hlo : lo < 256) (hhi : hi < 256) :
    int16_or (int16 (lo : Nat)) (int16_shl (int16 (hi : Nat)) 8) = signed16 (lo + 256 * hi) := by
  have h1 : int16 (lo : Nat) = lo := by unfold int16; omega
  have h2 : int16 (hi : Nat) = hi := by unfold int16; omega
  have h3 : ((lo : Int) % 65536).toNat = lo := by omega
  have h4 : ((int16 ((hi : Int) * 2 ^ 8)) % 65536).toNat = 2 ^ 8 * hi := by
    unfold int16; omega
  have h5 : lo ||| 2 ^ 8 * hi = 2 ^ 8 * hi + lo := by
    rw [Nat.lor_comm]
    exact (Nat.mul_add_lt_is_or (by simpa using hlo) hi).symm
  unfold int16_or int16_shl
  rw [h1, h2, h3, h4, h5]
  unfold int16 signed16
  split <;> omega

theorem Encode_loop_eq (pcm : List Nat) : ∀ (k i : Nat), 2 * (i + k) ≤ pcm.length →
    OpusEncoder.Encode_loop pcm i k = some ((List.range' i k).map (sampleAt pcm)) := by
  intro k
  induction k with
  | zero => intro i _; rfl
  | succ k ih =>
    intro i h
    have h0 : 2 * i < pcm.length := by omega
    have h1 : 2 * i + 1 < pcm.length := by omega
    have e0 : pcm[2 * i]? = some (pcm.getD (2 * i) 0) := by
      rw [List.getD_eq_getElem?_getD, List.getElem?_eq_getElem h0]; rfl
    have e1 : pcm[2 * i + 1]? = some (pcm.getD (2 * i + 1) 0) := by
      rw [List.getD_eq_getElem?_getD, List.getElem?_eq_getElem h1]; rfl
    rw [OpusEncoder.Encode_loop, e0, e1]
    simp only
    rw [ih (i + 1) (by omega)]
    simp only [Option.map_some', List.range'_succ, List.map_cons, sampleAt]
    rw [sample_value _ _ (Nat.mod_lt _ (by decide)) (Nat.mod_lt _ (by decide))]

theorem pcmData_eq (pcm : List Nat) :
    OpusEncoder.pcmData pcm = (List.range (pcm.length / 2)).map (sampleAt pcm) := by
  unfold OpusEncoder.pcmData
  apply List.map_congr_left
  intro i _
  have hlo : pcm.getD (2 * i) 0 % 256 < 256 := Nat.mod_lt _ (by decide)
  have hhi : pcm.getD (2 * i + 1) 0 % 256 < 256 := Nat.mod_lt _ (by decide)
  dsimp only [sampleAt]
  generalize pcm.getD (2 * i) 0 % 256 = lo at hlo ⊢
  generalize pcm.getD (2 * i + 1) 0 % 256 = hi at hhi ⊢
  have h5 : lo ||| hi <<< 8 = 2 ^ 8 * hi + lo := by
    rw [Nat.lor_comm, Nat.shiftLeft_eq, Nat.mul_comm]
    exact (Nat.mul_add_lt_is_or (by simpa using hlo) hi).symm
  rw [h5]
  unfold int16 signed16
  split <;> omega

/-! ## Lemmas on `formatDuration` -/

theorem fmtDecimal_small (u : Nat) (h : u < 100) (acc : List Char) :
    fmt.fmtDecimal u u acc =
      if u < 10 then fmt.digit u :: acc else fmt.digit (u / 10) :: fmt.digit (u % 10) :: acc := by
  by_cases h10 : u < 10
  · rw [if_pos h10]
    cases u with
    | zero => rfl
    | succ k => rw [fmt.fmtDecimal, if_neg (by omega)]
  · rw [if_neg h10]
    obtain ⟨k, rfl⟩ : ∃ k, u = k + 1 := ⟨u - 1, by omega⟩
    rw [fmt.fmtDecimal, if_pos (by omega)]
    obtain ⟨j, hj⟩ : ∃ j, k = j + 1 := ⟨k - 1, by omega⟩
    subst hj
    rw [fmt.fmtDecimal, if_neg (by omega)]

theorem Sprintf_02d_small (k : Nat) (h : k < 100) : fmt.Sprintf_02d (k : Int) = twoDigits k := by
  have hn : decide ((k : Int) < 0) = false := by simp
  simp only [fmt.Sprintf_02d, hn, Int.natAbs_ofNat, Bool.false_eq_true, if_false,
    fmtDecimal_small k h []]
  by_cases h10 : k < 10
  · have hd : k / 10 = 0 := by omega
    have hm : k % 10 = k := by omega
    simp [h10, twoDigits, hd, hm, fmt.digit]
  · simp [h10, twoDigits]

theorem fmtDecimal_length : ∀ (fuel u : Nat) (acc : List Char),
    acc.length + 1 ≤ (fmt.fmtDecimal fuel u acc).length := by
  intro fuel
  induction fuel with
  | zero => intro u acc; simp [fmt.fmtDecimal]
  | succ f ih =>
    intro u acc
    rw [fmt.fmtDecimal]
    split
    · have := ih (u / 10) (fmt.digit (u % 10) :: acc)
      simp only [List.length_cons] at this
      omega
    · simp

theorem Sprintf_02d_large (k : Nat) (h : 100 ≤ k) :
    fmt.Sprintf_02d (k : Int) = fmt.fmtDecimal k k [] ∧ 3 ≤ (fmt.fmtDecimal k k []).length := by
  have hn : decide ((k : Int) < 0) = false := by simp
  have hlen : 3 ≤ (fmt.fmtDecimal k k []).length := by
    obtain ⟨j, rfl⟩ : ∃ j, k = j + 2 := ⟨k - 2, by omega⟩
    rw [fmt.fmtDecimal, if_pos (by omega), fmt.fmtDecimal, if_pos (by omega)]
    have := fmtDecimal_length j ((j + 2) / 10 / 10) [fmt.digit ((j + 2) / 10 % 10), fmt.digit ((j + 2) % 10)]
    simpa using this
  refine ⟨?_, hlen⟩
  simp only [fmt.Sprintf_02d, hn, Int.natAbs_ofNat, Bool.false_eq_true, if_false]
  have : 2 - (fmt.fmtDecimal k k []).length = 0 := by omega
  rw [this]
  simp

/-- The base 10 loop of `fmtInteger` writes the decimal digits of a positive
number. -/
theorem fmtDecimal_digits : ∀ (fuel u : Nat) (acc : List Char), u ≤ fuel → 0 < u →
    fmt.fmtDecimal fuel u acc = decimalDigits u ++ acc := by
  intro fuel
  induction fuel with
  | zero => intro u acc h1 h2; omega
  | succ f ih =>
    intro u acc h1 h2
    rw [fmt.fmtDecimal]
    by_cases h10 : 10 ≤ u
    · rw [if_pos h10, ih (u / 10) _ (by omega) (by omega)]
      unfold decimalDigits
      rw [Nat.digits_def' (by decide) h2]
      simp
    · rw [if_neg h10]
      unfold decimalDigits
      rw [Nat.digits_of_lt 10 u (by omega) (by omega)]
      rfl

/-- The three fields `formatDuration` computes, for a number of seconds that
is not negative. -/
theorem formatDuration_nat (n : Nat) :
    formatDuration (n : Int) =
      if 0 < n / 3600 then
        String.mk (fmt.Sprintf_02d ((n / 3600 : Nat) : Int) ++
          ':' :: (fmt.Sprintf_02d ((n % 3600 / 60 : Nat) : Int) ++
          ':' :: fmt.Sprintf_02d ((n % 60 : Nat) : Int)))
      else
        String.mk (fmt.Sprintf_02d ((n % 3600 / 60 : Nat) : Int) ++
          ':' :: fmt.Sprintf_02d ((n % 60 : Nat) : Int)) := by
  have h1 : (n : Int).tdiv 3600 = ((n / 3600 : Nat) : Int) := (Int.ofNat_tdiv n 3600).symm
  have h2 : (n : Int).tmod 3600 = ((n % 3600 : Nat) : Int) := (Int.ofNat_tmod n 3600).symm
  have h3 : ((n % 3600 : Nat) : Int).tdiv 60 = ((n % 3600 / 60 : Nat) : Int) :=
    (Int.ofNat_tdiv (n % 3600) 60).symm
  have h4 : (n : Int).tmod 60 = ((n % 60 : Nat) : Int) := (Int.ofNat_tmod n 60).symm
  unfold formatDuration
  simp only [h1, h2, h3, h4]
  by_cases h : 0 < n / 3600
  · rw [if_pos h, if_pos (by exact_mod_cast h)]
  · rw [if_neg h, if_neg (by exact_mod_cast h)]

/-! ## Lemmas on the baseline -/

theorem playSong_baseline (s t : System) (song : Song) (env : PlayEnv) (err : Option PlayError)
    (h : playSong s song env = .returned (t, err)) :
    t.bot.PauseState.TotalPlayTime = s.bot.PauseState.TotalPlayTime := by
  unfold playSong at h
  cases hsp : env.spawn with
  | stdoutPipeError => simp only [hsp, Outcome.returned.injEq, Prod.mk.injEq] at h; rw [← h.1]
  | stderrPipeError => simp only [hsp, Outcome.returned.injEq, Prod.mk.injEq] at h; rw [← h.1]
  | startError => simp only [hsp, Outcome.returned.injEq, Prod.mk.injEq] at h; rw [← h.1]
  | started =>
    simp only [hsp] at h
    cases hv : s.bot.VoiceConn with
    | none => simp [hv] at h
    | some vc =>
      simp only [hv] at h
      cases henc : env.encoderOk with
      | false =>
        simp only [henc, Bool.not_false, if_true, Outcome.returned.injEq, Prod.mk.injEq] at h
        rw [← h.1]
      | true =>
        simp only [henc, Bool.not_true, Bool.false_eq_true, if_false] at h
        generalize hl : playSong_loop _ env.events = o at h
        cases o with
        | blocked => simp at h
        | panicked => simp at h
        | returned s3 =>
          have ha := (sameQueue_loop _ _ _ hl).2.2.2.2.2.2
          simp only [playSong_cleanup] at h
          cases hv3 : s3.bot.VoiceConn with
          | none => simp [hv3] at h
          | some vc3 =>
            simp only [hv3, Outcome.returned.injEq, Prod.mk.injEq] at h
            rw [← h.1]
            exact ha

theorem afterSong_baseline (s : System) (h : baselineZero s) :
    baselineZero (playQueue_afterSong s) := by
  unfold playQueue_afterSong
  split
  · rfl
  · split
    · exact h
    · exact h

theorem wait_baseline : ∀ (cmds : List Command) (s t : System),
    playQueue_wait s cmds = .returned t → baselineZero s → baselineZero t := by
  intro cmds
  induction cmds with
  | nil =>
    intro s t h hb
    simp only [playQueue_wait] at h
    split at h
    · cases h
    · cases h; exact hb
  | cons c cs ih =>
    intro s t h hb
    simp only [playQueue_wait] at h
    split at h
    · refine ih _ _ h ?_
      unfold baselineZero
      rw [(sameQueue_command c s).2.2.2.2.2.2]
      exact hb
    · cases h; exact hb

theorem pop_pauseState (b b1 : MusicBot) (song : Song)
    (h : playQueue_pop b = some (song, b1)) : b1.PauseState = b.PauseState := by
  unfold playQueue_pop at h
  split at h
  · cases h
  · split at h
    · split at h
      · cases h
      · cases h; rfl
    · cases h; rfl

theorem playQueue_baseline : ∀ (envs : List IterEnv) (s t : System),
    playQueue s envs = .returned t → baselineZero s → baselineZero t := by
  intro envs
  induction envs with
  | nil =>
    intro s t h hb
    simp only [playQueue] at h
    split at h
    · cases h; exact hb
    · cases h
  | cons env rest ih =>
    intro s t h hb
    simp only [playQueue] at h
    cases hp : playQueue_pop s.bot with
    | none =>
      simp only [hp, Outcome.returned.injEq] at h
      rw [← h]; exact hb
    | some r =>
      obtain ⟨song, b1⟩ := r
      simp only [hp] at h
      generalize hs : playSong _ song env.play = o at h
      cases o with
      | blocked => simp at h
      | panicked => simp at h
      | returned r2 =>
        obtain ⟨s2, err⟩ := r2
        simp only at h
        have h2 : baselineZero s2 := by
          unfold baselineZero
          rw [playSong_baseline _ _ _ _ _ hs]
          simp only [pop_pauseState _ _ _ hp]
          exact hb
        generalize hw : playQueue_wait (playQueue_afterSong s2) env.whilePaused = o2 at h
        cases o2 with
        | blocked => simp at h
        | panicked => simp at h
        | returned s3 =>
          simp only at h
          exact ih _ _ h (wait_baseline _ _ _ hw (afterSong_baseline _ h2))

theorem request_baseline (r : Request) (s t : System) (h : r.run s = .returned t)
    (hb : baselineZero s) : baselineZero t := by
  cases r with
  | play req =>
    simp only [Request.run, Outcome.returned.injEq] at h
    subst h
    unfold baselineZero handlePlayCommandSlash
    cases req with
    | respondError => exact hb
    | joinError => exact hb
    | fetchError vc => exact hb
    | ok vc song =>
      simp only
      split
      · exact hb
      · exact hb
  | command c =>
    simp only [Request.run, Outcome.returned.injEq] at h
    subst h
    unfold baselineZero
    rw [(sameQueue_command c s).2.2.2.2.2.2]
    exact hb
  | stop =>
    simp only [Request.run, Outcome.returned.injEq] at h
    subst h
    unfold baselineZero
    rw [stopSlash_pauseState]
    exact hb
  | restart =>
    simp only [Request.run, restartSlash, Outcome.returned.injEq] at h
    subst h
    unfold baselineZero restartSlash_reset
    simp only

theorem step_baseline (s t : System) (h : Step s t) (hb : baselineZero s) : baselineZero t := by
  cases h with
  | request r _ _ h => exact request_baseline r s t h hb
  | progress _ p => exact hb
  | turns _ _ evs h =>
    unfold baselineZero
    rw [(sameQueue_loop evs s t h).2.2.2.2.2.2]
    exact hb
  | session _ _ song env err h =>
    unfold baselineZero
    rw [playSong_baseline _ _ _ _ _ h]
    exact hb
  | restartPlay _ _ song env err h =>
    unfold baselineZero
    rw [playSong_baseline _ _ _ _ _ h]
    exact hb
  | pop _ song b h =>
    unfold baselineZero
    simp only [pop_pauseState _ _ _ h]
    exact hb
  | afterSong _ => exact afterSong_baseline s hb
  | wait _ _ cmds h => exact wait_baseline cmds s t h hb
  | loopExit _ => exact hb
  | controller _ _ envs h => exact playQueue_baseline envs s t h hb

/-- With baseline 0 the start offset is the position. -/
theorem startPos_of_baselineZero (ps : PauseState) (h : ps.TotalPlayTime = Float64.zero) :
    playSong_startPos ps = ps.Pos := by
  unfold playSong_startPos
  rw [h, add_zero_left]
  cases hp : ps.Pos with
  | finite k hk =>
    by_cases hq : k = 0
    · subst hq
      simp [Float64.isZero, Float64.zero]
    · simp [Float64.isZero, hq]
  | inf neg => simp [Float64.isZero]
  | nan => simp [Float64.isZero]

/-! ## Lemmas on reads of the status stream -/

/-- Splitting at a separator splits what stands before it and what stands
after it. -/
theorem Split_append_sep : ∀ (x y : List Char) (sep : Char),
    strings.Split (x ++ sep :: y) sep = strings.Split x sep ++ strings.Split y sep := by
  intro x y sep
  induction x with
  | nil => simp [strings.Split]
  | cons c cs ih =>
    by_cases hc : c = sep
    · subst hc
      rw [List.cons_append, strings.Split, if_pos rfl, ih, strings.Split, if_pos rfl]
      rfl
    · rw [List.cons_append, strings.Split, if_neg hc, ih, strings.Split, if_neg hc]
      cases hs : strings.Split cs sep with
      | nil => exact absurd hs (Split_ne_nil cs sep)
      | cons p ps => rfl

theorem line_nil : parseFFmpegProgress_line [] = none := by
  decide

theorem read_nil : parseFFmpegProgress_read [] = [] := by
  decide

/-- What a read sends is what its part before a newline sends, followed
by what its part after that newline sends. -/
theorem read_append (x y : List Char) :
    parseFFmpegProgress_read (x ++ '\n' :: y) =
      parseFFmpegProgress_read x ++ parseFFmpegProgress_read y := by
  simp only [parseFFmpegProgress_read, Split_append_sep, List.filterMap_append]

/-- A read that is empty or ends with a newline can be cut off from what
follows it. -/
theorem read_whole_lines (c r : List Char) (h : c = [] ∨ c.getLast? = some '\n') :
    parseFFmpegProgress_read (c ++ r) =
      parseFFmpegProgress_read c ++ parseFFmpegProgress_read r := by
  rcases h with h | h
  · subst h
    simp [read_nil]
  · obtain ⟨x, hx⟩ : ∃ x, c = x ++ ['\n'] := by
      rcases List.eq_nil_or_concat c with h0 | ⟨x, b, hb⟩
      · subst h0; simp at h
      · subst hb
        simp at h
        exact ⟨x, by rw [h]; simp⟩
    subst hx
    have e1 : x ++ ['\n'] ++ r = x ++ '\n' :: r := by simp
    have e2 : x ++ ['\n'] = x ++ '\n' :: [] := rfl
    rw [e1, e2, read_append, read_append, read_nil, List.append_nil]

theorem parse_chunk (output : List Char) (rest : List StatusRead) :
    parseFFmpegProgress (.chunk output :: rest) =
      (parseFFmpegProgress_read output ++ (parseFFmpegProgress rest).1,
        (parseFFmpegProgress rest).2) := rfl

/-- A line with the prefix and three fields sends one value, a field that
`Sscanf` cannot read counting as 0. -/
theorem line_three_fields (line a b c : List Char)
    (hp : strings.HasPrefix line outTimeKey = true)
    (hs : strings.Split (strings.TrimPrefix line outTimeKey) ':' = [a, b, c]) :
    parseFFmpegProgress_line line =
      some ((((fmt.Sscanf_f a).getD Float64.zero).mul (.fin 3600)).add
        (((fmt.Sscanf_f b).getD Float64.zero).mul (.fin 60)) |>.add
        ((fmt.Sscanf_f c).getD Float64.zero)) := by
  simp [parseFFmpegProgress_line, hp, hs]

/-- A line without a newline in it, followed by a newline: the read sends
what the line sends, then what the rest sends. -/
theorem read_line_cons (line rest : List Char) (hnl : '\n' ∉ line) :
    parseFFmpegProgress_read (line ++ '\n' :: rest) =
      (parseFFmpegProgress_line line).toList ++ parseFFmpegProgress_read rest := by
  rw [read_append]
  simp only [parseFFmpegProgress_read, Split_no_sep line '\n' hnl]
  cases hl : parseFFmpegProgress_line line <;> simp [hl]

theorem line_out_time_1_5 :
    parseFFmpegProgress_line "out_time=00:00:01.5".toList = some (Float64.fin (3 / 2)) := by
  have h := line_statusLine ['0', '0'] ['0', '0'] ['0', '1'] (some ['5'])
    ⟨by decide, by decide⟩ ⟨by decide, by decide⟩ ⟨by decide, by decide⟩
    (fun f hf => by cases hf; decide)
  have e : statusLine ['0', '0'] ['0', '0'] ['0', '1'] (some ['5']) =
      "out_time=00:00:01.5".toList := by decide
  have v00 : decimalValue ['0', '0'] = 0 := by decide
  have v01 : decimalValue ['0', '1'] = 1 := by decide
  have v5 : decimalValue ['5'] = 5 := by decide
  have e0 : ((0 : Nat) : ℚ) = ((0 : Nat) : ℚ) / ((1 : Nat) : ℚ) := by norm_num
  have e1 : ((1 : Nat) : ℚ) + ((5 : Nat) : ℚ) / 10 ^ ['5'].length =
      ((3 : Nat) : ℚ) / ((2 : Nat) : ℚ) := by norm_num
  have e2 : (3 / 2 : ℚ) = ((3 : Nat) : ℚ) / ((2 : Nat) : ℚ) := by norm_num
  rw [e] at h
  rw [h]
  simp only [secondsValue, v00, v01, v5, scanned, strconv.atof64]
  rw [fin_eval _ 0 1 (by decide) e0, fin_eval _ 3 2 (by decide) e1, fin_eval _ 3 2 (by decide) e2]
  decide

theorem line_out_time_cut :
    parseFFmpegProgress_line "out_time=00:00:".toList = some (Float64.fin 0) := by
  have h := line_three_fields "out_time=00:00:".toList ['0', '0'] ['0', '0'] []
    (by decide) (by decide)
  have h00 := Sscanf_decimal ['0', '0'] ⟨by decide, by decide⟩
  have v00 : decimalValue ['0', '0'] = 0 := by decide
  have hnil : fmt.Sscanf_f [] = none := by decide
  have e0 : ((0 : Nat) : ℚ) = ((0 : Nat) : ℚ) / ((1 : Nat) : ℚ) := by norm_num
  rw [h, h00, hnil, v00]
  simp only [strconv.atof64]
  rw [fin_eval _ 0 1 (by decide) e0]
  decide

/-- With both flags off, the `default` case hands the bytes of a non-empty
read to `Encode` as they are, whatever their number. -/
theorem default_encodes_read (s t : System) (b : List Nat) (ok : Bool)
    (hf : flagsOff s) (hb : b ≠ []) (h : playSong_default s (.bytes b) ok = some t) :
    t.encoded = s.encoded ++ [b] ∧ t.reads = s.reads + 1 := by
  have hlen : b.length ≠ 0 := fun h0 => hb (List.length_eq_zero.mp h0)
  unfold playSong_default at h
  simp only [hf.1, hf.2, Bool.or_self, Bool.false_eq_true, if_false, hlen] at h
  split at h
  · cases h; exact ⟨rfl, rfl⟩
  · split at h
    · cases h
    · cases h; exact ⟨rfl, rfl⟩

/-! ## The claims -/

/-- C1 at the failing input: A and B are queued, the progress updates of A
leave position 120, and the session of A ends naturally.  The controller loop
then pops B and `playSong` starts its process at offset 120, not 0; the
position is still 120 when B is started. -/
theorem C1_next_track_starts_at_old_position :
    (∃ t, playQueue queuedAB [⟨sessionTo 120, []⟩, ⟨sessionTo 180, []⟩] = .returned t ∧
      t.played = [songA, songB] ∧
      t.procs.map Proc.args =
        [(Float64.zero, songA.StreamURL), (Float64.fin 120, songB.StreamURL)]) ∧
    (∃ s2 b3, playSong
        { queuedAB with
          bot := { queuedAB.bot with Queue := [songB], CurrentSong := some songA }
          played := [songA] } songA (sessionTo 120) = .returned (s2, none) ∧
      s2.bot.PauseState.SkipReq = false ∧ s2.bot.PauseState.Paused = false ∧
      playQueue_pop (playQueue_afterSong s2).bot = some (songB, b3) ∧
      b3.PauseState.Pos = Float64.fin 120 ∧
      playSong_startPos b3.PauseState = Float64.fin 120) := by
  exact ⟨⟨_, rfl, rfl, rfl⟩, ⟨_, _, rfl, rfl, rfl, rfl, rfl, rfl⟩⟩

/-- C2 at the failing input: A and B are queued and `newOpusEncoder` fails in
the session of A, after its process was started.  `playSong` returns the
error with the process of A alive and its handle still stored; the controller
loop goes on to B, whose process is started while that of A has not been
killed, and the process of A is never killed. -/
theorem C2_encoder_error_leaves_process :
    (∃ s2, playSong
        { queuedAB with
          bot := { queuedAB.bot with Queue := [songB], CurrentSong := some songA }
          played := [songA] } songA sessionEncoderFails = .returned (s2, some .encoder) ∧
      s2.procs = [{ startPos := Float64.zero, input := songA.StreamURL, killed := false }] ∧
      s2.bot.PauseState.Cmd = some 0 ∧
      (∃ b3, playQueue_pop (playQueue_afterSong s2).bot = some (songB, b3) ∧
        b3.PauseState.Cmd = some 0) ∧
      (playQueue_afterSong s2).procs = s2.procs) ∧
    (∃ t, playQueue queuedAB [⟨sessionEncoderFails, []⟩, ⟨sessionTo 180, []⟩] = .returned t ∧
      t.played = [songA, songB] ∧
      t.procs =
        [{ startPos := Float64.zero, input := songA.StreamURL, killed := false },
         { startPos := Float64.zero, input := songB.StreamURL, killed := true }]) := by
  refine ⟨⟨_, rfl, rfl, rfl, ⟨_, rfl, rfl⟩, rfl⟩, ⟨_, rfl, rfl, rfl⟩⟩

/-- C3: a skip is requested through `nextSlash` in any state of a running
session (paused or not, any position, process alive or gone).  Once the loop
of `playSong` has been left and its cleanup has run, the step of the
controller loop after the track leaves the skip flag and the pause flag
false, position and baseline 0 and the current slot empty, and the pending
sequence as it was, so that the next pop step takes its head. -/
theorem C3_skip_resets (s s1 s2 : System) (evs : List PumpEvent) (h : Nat)
    (hloop : playSong_loop (nextSlash s) evs = .returned s1)
    (hclean : playSong_cleanup s1 h = .returned s2) :
    (playQueue_afterSong s2).bot.PauseState.SkipReq = false ∧
    (playQueue_afterSong s2).bot.PauseState.Paused = false ∧
    (playQueue_afterSong s2).bot.PauseState.Pos = Float64.zero ∧
    (playQueue_afterSong s2).bot.PauseState.TotalPlayTime = Float64.zero ∧
    (playQueue_afterSong s2).bot.CurrentSong = none ∧
    (playQueue_afterSong s2).bot.Queue = s.bot.Queue ∧
    playQueue_pop (playQueue_afterSong s2).bot =
      match s.bot.Queue with
      | [] => none
      | a :: rest =>
        some (a, { (playQueue_afterSong s2).bot with Queue := rest, CurrentSong := some a }) := by
  have hnext : (nextSlash s).bot.PauseState.SkipReq = true := by
    simp only [nextSlash]
    split <;> simp
  have hq0 : (nextSlash s).bot.Queue = s.bot.Queue := by
    simp only [nextSlash]
    split <;> simp
  have hskip1 := skipReq_loop evs _ _ hnext hloop
  have hq1 := (sameQueue_loop evs _ _ hloop).1
  have hskip2 : s2.bot.PauseState.SkipReq = true ∧ s2.bot.Queue = s.bot.Queue := by
    unfold playSong_cleanup at hclean
    split at hclean
    · cases hclean
    · cases hclean
      exact ⟨hskip1, hq1.trans hq0⟩
  have hafter : playQueue_afterSong s2 =
      { s2 with
        bot.PauseState.SkipReq := false
        bot.PauseState.Paused := false
        bot.PauseState.Pos := Float64.zero
        bot.PauseState.TotalPlayTime := Float64.zero
        bot.CurrentSong := none } := by
    simp [playQueue_afterSong, hskip2.1]
  rw [hafter]
  refine ⟨rfl, rfl, rfl, rfl, rfl, hskip2.2, ?_⟩
  cases hq : s.bot.Queue with
  | nil => simp [playQueue_pop, hskip2.2, hq]
  | cons a rest => simp [playQueue_pop, hskip2.2, hq]

/-- C3 at a concrete input: paused at 42 with B pending, skip, one more
progress value, then the stream ends.  The step after the track leaves
position 0 and B pending. -/
theorem C3_skip_resets_witness :
    ∃ s1 s2,
      playSong_loop (nextSlash pausedAt42)
        [.progress (.fin 43), .poll .eof true, .done false] = .returned s1 ∧
      playSong_cleanup s1 0 = .returned s2 ∧
      (playQueue_afterSong s2).bot.PauseState.Pos = Float64.zero ∧
      (playQueue_afterSong s2).bot.Queue = [songB] :=
  ⟨_, _, rfl, rfl,
    (C3_skip_resets pausedAt42 _ _ [.progress (.fin 43), .poll .eof true, .done false] 0
      rfl rfl).2.2.1,
    (C3_skip_resets pausedAt42 _ _ [.progress (.fin 43), .poll .eof true, .done false] 0
      rfl rfl).2.2.2.2.2.1⟩

/-- C4 at the failing input, a stop while a track is paused at position 42:
`stopSlash` clears the handle, the queue and the current slot, and leaves the
position at 42 and the pause flag set. -/
theorem C4_stopSlash_keeps_position :
    (stopSlash pausedAt42).bot.PauseState =
      { Paused := true, Pos := .fin 42, TotalPlayTime := Float64.zero, SkipReq := false,
        Cmd := none } ∧
    (stopSlash pausedAt42).procs =
      [{ startPos := Float64.zero, input := songA.StreamURL, killed := true }] := by
  constructor <;> rfl

/-- C5 at the failing input: a restart while A is paused at 42 with B pending.
In every state the locked block of `restartSlash` leaves position 0, baseline
0, both flags false and no handle; here it starts its goroutine, which reads
the reference of A and looks it up.  During the lookup the controller loop
goes on: the session of A, whose process was killed, ends; the pause flag
being reset, the step after the track takes the track for finished and
empties the slot; B is popped and its session started at offset 0; the loop
of that session stores the progress value 7.  The goroutine then puts the
descriptor looked up in the slot and calls `playSong`, which computes the
start offset 7 and starts the process of the restart there, beside the
process of B, which is still running. -/
theorem C5_restart_starts_at_position_of_next_track :
    (∀ s, (restartSlash s).1.bot.PauseState =
      { Paused := false, Pos := Float64.zero, TotalPlayTime := Float64.zero, SkipReq := false,
        Cmd := none }) ∧
    (restartSlash pausedAt42).2 = true ∧
    restartSlash_fetch (restartSlash pausedAt42).1 lookupA =
      .returned (some { songA with StreamURL := "https://cdn.example/a2.webm" }) ∧
    ∃ s2 b4 s5 t,
      playSong_loop (restartSlash pausedAt42).1 [.done false] =
        .returned (restartSlash pausedAt42).1 ∧
      playSong_cleanup (restartSlash pausedAt42).1 0 = .returned s2 ∧
      (playQueue_afterSong s2).bot.CurrentSong = none ∧
      playQueue_pop (playQueue_afterSong s2).bot = some (songB, b4) ∧
      playSong_enter
        { playQueue_afterSong s2 with
          bot := b4, played := (playQueue_afterSong s2).played ++ [songB] } songB =
        some (s5, 1) ∧
      s5.procs.map Proc.args =
        [(Float64.zero, songA.StreamURL), (Float64.zero, songB.StreamURL)] ∧
      Step s5 { s5 with bot.PauseState.Pos := .fin 7 } ∧
      playSong_startPos ({ s5 with bot.PauseState.Pos := .fin 7 } : System).bot.PauseState =
        Float64.fin 7 ∧
      restartSlash_play { s5 with bot.PauseState.Pos := .fin 7 }
        { songA with StreamURL := "https://cdn.example/a2.webm" } (sessionTo 8) =
        .returned (t, none) ∧
      t.procs =
        [{ startPos := Float64.zero, input := songA.StreamURL, killed := true },
         { startPos := Float64.zero, input := songB.StreamURL, killed := false },
         { startPos := Float64.fin 7, input := "https://cdn.example/a2.webm", killed := true }] := by
  refine ⟨?_, rfl, rfl, _, _, _, _, rfl, rfl, rfl, rfl, rfl, rfl, Step.progress _ _, rfl, rfl, rfl⟩
  intro s
  simp only [restartSlash, restartSlash_reset]
  split <;> simp_all

/-- C6 at the failing input: `/play A`, `/stop`, `/play B`, the loop started
for A not having reached its end.  After the stop the flag is false while one
loop runs; the second enqueue therefore starts another loop, and two run. -/
theorem C6_stop_then_enqueue_starts_second_loop :
    LoopStep System.init (handlePlayCommandSlash System.init (.ok voice0 songA)) ∧
    LoopStep (handlePlayCommandSlash System.init (.ok voice0 songA))
      (stopSlash (handlePlayCommandSlash System.init (.ok voice0 songA))) ∧
    LoopStep (stopSlash (handlePlayCommandSlash System.init (.ok voice0 songA)))
      (handlePlayCommandSlash (stopSlash (handlePlayCommandSlash System.init (.ok voice0 songA)))
        (.ok voice0 songB)) ∧
    (handlePlayCommandSlash System.init (.ok voice0 songA)).loops = 1 ∧
    (stopSlash (handlePlayCommandSlash System.init (.ok voice0 songA))).bot.CurrentlyPlaying
      = false ∧
    (stopSlash (handlePlayCommandSlash System.init (.ok voice0 songA))).loops = 1 ∧
    (handlePlayCommandSlash (stopSlash (handlePlayCommandSlash System.init (.ok voice0 songA)))
      (.ok voice0 songB)).loops = 2 := by
  refine ⟨LoopStep.enqueue _ _ _, LoopStep.stop _, LoopStep.enqueue _ _ _, rfl, rfl, rfl, rfl⟩

/-- C7: the pop step at the head of the controller loop.  With an empty
current slot and a non-empty pending sequence it returns the head of the
sequence, puts it in the current slot and leaves the former tail pending; with
an occupied current slot it returns that track and changes neither the slot
nor the sequence; hence repeating the step returns the same track and changes
nothing. -/
theorem C7_pop_step (b : MusicBot) :
    (∀ song rest, b.CurrentSong = none → b.Queue = song :: rest →
      playQueue_pop b = some (song, { b with Queue := rest, CurrentSong := some song })) ∧
    (∀ cur, b.CurrentSong = some cur → playQueue_pop b = some (cur, b)) ∧
    (∀ song b1, playQueue_pop b = some (song, b1) →
      b1.CurrentSong = some song ∧ playQueue_pop b1 = some (song, b1)) := by
  refine ⟨?_, ?_, ?_⟩
  · intro song rest hc hq
    simp [playQueue_pop, hc, hq]
  · intro cur hc
    simp [playQueue_pop, hc]
  · intro song b1 h
    cases hc : b.CurrentSong with
    | some cur =>
      simp only [playQueue_pop, hc] at h
      simp at h
      obtain ⟨h1, h2⟩ := h
      subst h1; subst h2
      simp [playQueue_pop, hc]
    | none =>
      cases hq : b.Queue with
      | nil => simp [playQueue_pop, hc, hq] at h
      | cons a rest =>
        simp only [playQueue_pop, hc, hq] at h
        simp at h
        obtain ⟨h1, h2⟩ := h
        subst h1; subst h2
        simp [playQueue_pop]

/-- C8: the queue is first in, first out.  An enqueue (the append of
`handlePlayCommandSlash`) is a total function that puts the track at the tail
and changes neither the current slot nor the tracks already pending; and when
the tracks `ts` are enqueued in order on an empty queue with an empty current
slot, the controller loop, each of whose sessions ends undisturbed, announces
exactly `ts` in that order and then leaves through its "nothing to play"
exit. -/
theorem C8_fifo (s : System) (ts : List Song) (envs : List IterEnv)
    (hq : s.bot.Queue = []) (hc : s.bot.CurrentSong = none) (hf : flagsOff s)
    (hv : s.bot.VoiceConn.isSome = true) (hlen : envs.length = ts.length)
    (hu : ∀ e ∈ envs, e.play.undisturbed = true) :
    (∀ (b : MusicBot) (t : Song),
      (enqueue b t).Queue = b.Queue ++ [t] ∧ (enqueue b t).CurrentSong = b.CurrentSong) ∧
    (∀ (u : System) (vc : VoiceConnection) (t : Song),
      (handlePlayCommandSlash u (.ok vc t)).bot.Queue = u.bot.Queue ++ [t] ∧
      (handlePlayCommandSlash u (.ok vc t)).bot.CurrentSong = u.bot.CurrentSong) ∧
    ∃ t, playQueue { s with bot := ts.foldl enqueue s.bot } envs = .returned t ∧
      t.played = s.played ++ ts ∧ playQueue_pop t.bot = none := by
  refine ⟨fun b t => ⟨rfl, rfl⟩, ?_, ?_⟩
  · intro u vc t
    simp only [handlePlayCommandSlash, enqueue]
    split <;> simp
  · obtain ⟨t, h1, h2, h3, h4⟩ := playQueue_drains ts envs
      { s with bot := ts.foldl enqueue s.bot }
      (by simp [foldl_enqueue, hq]) (by simp [foldl_enqueue, hc])
      (by simpa [foldl_enqueue, flagsOff] using hf) (by simpa [foldl_enqueue] using hv)
      hlen hu
    exact ⟨t, h1, h2, by simp [playQueue_pop, h3, h4]⟩

/-- C8 at a concrete input: A then B are enqueued and played in that order. -/
theorem C8_fifo_witness :
    ∃ t, playQueue
        { ({ System.init with bot.VoiceConn := some voice0 } : System) with
          bot := [songA, songB].foldl enqueue
            ({ System.init with bot.VoiceConn := some voice0 } : System).bot }
        [⟨sessionTo 120, []⟩, ⟨sessionTo 180, []⟩] = .returned t ∧
      t.played = ({ System.init with bot.VoiceConn := some voice0 } : System).played ++
        [songA, songB] ∧
      playQueue_pop t.bot = none :=
  (C8_fifo { System.init with bot.VoiceConn := some voice0 } [songA, songB]
    [⟨sessionTo 120, []⟩, ⟨sessionTo 180, []⟩] rfl rfl ⟨rfl, rfl⟩ rfl rfl
    (by decide)).2.2

/-- C10 as stated fails: the line `out_time=00:01:07.052` sends the float64
`2359182517300363 / 2 ^ 45` (67.05199999999999...), which is neither
`0*3600 + 1*60 + 7.052` nor the float64 nearest to it, the sum of 60 and the
float64 nearest to 7.052 being rounded once more; and a line whose hours
field is a 1 followed by 309 zeros, a number beyond the range of `float64`,
sends the value of its other fields, the scan of the hours having failed. -/
theorem C10_sum_is_rounded :
    parseFFmpegProgress_line "out_time=00:01:07.052".toList =
      some (Float64.fin (2359182517300363 / 35184372088832)) ∧
    (Float64.fin (2359182517300363 / 35184372088832)).toRat =
      some (2359182517300363 / 35184372088832) ∧
    (2359182517300363 / 35184372088832 : ℚ) ≠ 0 * 3600 + 1 * 60 + 7052 / 1000 ∧
    Float64.fin (2359182517300363 / 35184372088832) ≠ Float64.fin (0 * 3600 + 1 * 60 + 7052 / 1000) ∧
    parseFFmpegProgress_line
        (statusLine ('1' :: List.replicate 309 '0') ['0', '0'] ['0', '5'] none) =
      some (Float64.fin 5) := by
  have e0 : ((0 : Nat) : ℚ) = ((0 : Nat) : ℚ) / ((1 : Nat) : ℚ) := by norm_num
  have e1 : ((1 : Nat) : ℚ) = ((1 : Nat) : ℚ) / ((1 : Nat) : ℚ) := by norm_num
  have e5 : ((5 : Nat) : ℚ) = ((5 : Nat) : ℚ) / ((1 : Nat) : ℚ) := by norm_num
  have er : (2359182517300363 / 35184372088832 : ℚ) =
      ((2359182517300363 : Nat) : ℚ) / ((35184372088832 : Nat) : ℚ) := by norm_num
  have en : (0 * 3600 + 1 * 60 + 7052 / 1000 : ℚ) = ((16763 : Nat) : ℚ) / ((250 : Nat) : ℚ) := by
    norm_num
  refine ⟨?_, ?_, by norm_num, ?_, ?_⟩
  · have h := line_statusLine ['0', '0'] ['0', '1'] ['0', '7'] (some ['0', '5', '2'])
      ⟨by decide, by decide⟩ ⟨by decide, by decide⟩ ⟨by decide, by decide⟩
      (fun f hf => by cases hf; decide)
    have e : statusLine ['0', '0'] ['0', '1'] ['0', '7'] (some ['0', '5', '2']) =
        "out_time=00:01:07.052".toList := by decide
    have v00 : decimalValue ['0', '0'] = 0 := by decide
    have v01 : decimalValue ['0', '1'] = 1 := by decide
    have v07 : decimalValue ['0', '7'] = 7 := by decide
    have v052 : decimalValue ['0', '5', '2'] = 52 := by decide
    have es : ((7 : Nat) : ℚ) + ((52 : Nat) : ℚ) / 10 ^ ['0', '5', '2'].length =
        ((1763 : Nat) : ℚ) / ((250 : Nat) : ℚ) := by norm_num
    rw [e] at h
    rw [h]
    simp only [secondsValue, v00, v01, v07, v052, scanned, strconv.atof64]
    rw [fin_eval _ 0 1 (by decide) e0, fin_eval _ 1 1 (by decide) e1,
      fin_eval _ 1763 250 (by decide) es, fin_eval _ _ _ (by decide) er]
    decide
  · exact fin_dyadic _ 2359182517300363 45 (by norm_num) (by decide) (by decide)
  · rw [fin_eval _ _ _ (by decide) er, fin_eval _ _ _ (by decide) en]
    decide
  · have hdec : isDecimal ('1' :: List.replicate 309 '0') := by
      refine ⟨List.cons_ne_nil _ _, ?_⟩
      intro c hc
      simp only [List.mem_cons, List.mem_replicate] at hc
      rcases hc with h | ⟨_, h⟩ <;> rw [h] <;> decide
    have h := line_statusLine ('1' :: List.replicate 309 '0') ['0', '0'] ['0', '5'] none
      hdec ⟨by decide, by decide⟩ ⟨by decide, by decide⟩ (fun f hf => by cases hf)
    have vH : decimalValue ('1' :: List.replicate 309 '0') = 10 ^ 309 :=
      decimalValue_one_zeros 309
    have v00 : decimalValue ['0', '0'] = 0 := by decide
    have v05 : decimalValue ['0', '5'] = 5 := by decide
    have eH : ((10 ^ 309 : Nat) : ℚ) = ((10 ^ 309 : Nat) : ℚ) / ((1 : Nat) : ℚ) := by norm_num
    have e5q : (5 : ℚ) = ((5 : Nat) : ℚ) / ((1 : Nat) : ℚ) := by norm_num
    rw [h]
    simp only [secondsValue, vH, v00, v05, scanned, strconv.atof64]
    rw [fin_eval _ 0 1 (by decide) e0, fin_eval _ 5 1 (by decide) e5,
      fin_eval _ _ 1 (by decide) eH, fin_eval _ 5 1 (by decide) e5q]
    decide

/-- A field that denotes a float64 is read as that float64. -/
theorem scanned_exact (q : ℚ) (h : (Float64.fin q).toRat = some q) :
    scanned q = Float64.fin q := by
  unfold scanned strconv.atof64
  cases hv : Float64.fin q with
  | finite k hk => rfl
  | inf neg => rw [hv] at h; simp [Float64.toRat] at h
  | nan => rfl

/-- When `S * 2 ^ j` is a whole number and `(H*3600 + M*60 + S) * 2 ^ j` is
below `2 ^ 53`, no step of `hours*3600 + minutes*60 + seconds` rounds: the
line sends exactly `H*3600 + M*60 + S`, a float64. -/
theorem statusLine_exact (H M whole : List Char) (fraction : Option (List Char))
    (hH : isDecimal H) (hM : isDecimal M) (hw : isDecimal whole)
    (hf : ∀ f, fraction = some f → isDecimal f) (j n : Nat) (hj : j ≤ 1074)
    (hS : secondsValue whole fraction * 2 ^ j = n)
    (hlt : (decimalValue H * 3600 + decimalValue M * 60) * 2 ^ j + n < 2 ^ 53) :
    parseFFmpegProgress_line (statusLine H M whole fraction) =
      some (Float64.fin
        ((decimalValue H : ℚ) * 3600 + (decimalValue M : ℚ) * 60 +
          secondsValue whole fraction)) ∧
    (Float64.fin
        ((decimalValue H : ℚ) * 3600 + (decimalValue M : ℚ) * 60 +
          secondsValue whole fraction)).toRat =
      some ((decimalValue H : ℚ) * 3600 + (decimalValue M : ℚ) * 60 +
        secondsValue whole fraction) := by
  have hf1 : ∀ f, fraction = some f → ∀ c ∈ f, c.isDigit = true := fun f h => (hf f h).2
  have hline := line_statusLine H M whole fraction hH hM hw hf1
  generalize decimalValue H = h at hlt hline ⊢
  generalize decimalValue M = m at hlt hline ⊢
  generalize secondsValue whole fraction = S at hS hlt hline ⊢
  have b1 : h * 2 ^ j < 2 ^ 53 := by
    refine lt_of_le_of_lt ?_ hlt
    calc h * 2 ^ j ≤ (h * 3600 + m * 60) * 2 ^ j := Nat.mul_le_mul_right _ (by omega)
      _ ≤ (h * 3600 + m * 60) * 2 ^ j + n := Nat.le_add_right _ _
  have b2 : m * 2 ^ j < 2 ^ 53 := by
    refine lt_of_le_of_lt ?_ hlt
    calc m * 2 ^ j ≤ (h * 3600 + m * 60) * 2 ^ j := Nat.mul_le_mul_right _ (by omega)
      _ ≤ (h * 3600 + m * 60) * 2 ^ j + n := Nat.le_add_right _ _
  have b3 : h * 3600 * 2 ^ j < 2 ^ 53 := by
    refine lt_of_le_of_lt ?_ hlt
    calc h * 3600 * 2 ^ j ≤ (h * 3600 + m * 60) * 2 ^ j := Nat.mul_le_mul_right _ (by omega)
      _ ≤ (h * 3600 + m * 60) * 2 ^ j + n := Nat.le_add_right _ _
  have b4 : m * 60 * 2 ^ j < 2 ^ 53 := by
    refine lt_of_le_of_lt ?_ hlt
    calc m * 60 * 2 ^ j ≤ (h * 3600 + m * 60) * 2 ^ j := Nat.mul_le_mul_right _ (by omega)
      _ ≤ (h * 3600 + m * 60) * 2 ^ j + n := Nat.le_add_right _ _
  have b5 : (h * 3600 + m * 60) * 2 ^ j < 2 ^ 53 :=
    lt_of_le_of_lt (Nat.le_add_right _ _) hlt
  have b6 : n < 2 ^ 53 := lt_of_le_of_lt (Nat.le_add_left _ _) hlt
  have xh := fin_dyadic (h : ℚ) (h * 2 ^ j) j (by push_cast; ring) b1 hj
  have xm := fin_dyadic (m : ℚ) (m * 2 ^ j) j (by push_cast; ring) b2 hj
  have x3600 := fin_dyadic 3600 3600 0 (by norm_num) (by decide) (by decide)
  have x60 := fin_dyadic 60 60 0 (by norm_num) (by decide) (by decide)
  have xh3600 := fin_dyadic ((h : ℚ) * 3600) (h * 3600 * 2 ^ j) j (by push_cast; ring) b3 hj
  have xm60 := fin_dyadic ((m : ℚ) * 60) (m * 60 * 2 ^ j) j (by push_cast; ring) b4 hj
  have xhm := fin_dyadic ((h : ℚ) * 3600 + (m : ℚ) * 60) ((h * 3600 + m * 60) * 2 ^ j) j
    (by push_cast; ring) b5 hj
  have xS := fin_dyadic S n j hS b6 hj
  have xT := fin_dyadic ((h : ℚ) * 3600 + (m : ℚ) * 60 + S) ((h * 3600 + m * 60) * 2 ^ j + n) j
    (by push_cast; rw [← hS]; ring) hlt hj
  refine ⟨?_, xT⟩
  rw [hline, scanned_exact _ xh, scanned_exact _ xm, scanned_exact _ xS,
    mul_toRat _ _ _ _ xh x3600, mul_toRat _ _ _ _ xm x60, add_toRat _ _ _ _ xh3600 xm60,
    add_toRat _ _ _ _ xhm xS]

/-- The two lines of the specification: `out_time=00:01:05.500` sends 65.5
and `out_time=01:00:00` sends 3600, both float64 values. -/
theorem statusLine_examples :
    (parseFFmpegProgress_line "out_time=00:01:05.500".toList = some (Float64.fin (131 / 2)) ∧
      (Float64.fin (131 / 2)).toRat = some (131 / 2)) ∧
    (parseFFmpegProgress_line "out_time=01:00:00".toList = some (Float64.fin 3600) ∧
      (Float64.fin 3600).toRat = some 3600) := by
  have v00 : decimalValue ['0', '0'] = 0 := by decide
  have v01 : decimalValue ['0', '1'] = 1 := by decide
  have v05 : decimalValue ['0', '5'] = 5 := by decide
  have v500 : decimalValue ['5', '0', '0'] = 500 := by decide
  have h1 := statusLine_exact ['0', '0'] ['0', '1'] ['0', '5'] (some ['5', '0', '0'])
    ⟨by decide, by decide⟩ ⟨by decide, by decide⟩ ⟨by decide, by decide⟩
    (fun f hf => by cases hf; exact ⟨by decide, by decide⟩) 1 11 (by decide)
    (by simp only [secondsValue, v05, v500]; norm_num) (by decide)
  have h2 := statusLine_exact ['0', '1'] ['0', '0'] ['0', '0'] none
    ⟨by decide, by decide⟩ ⟨by decide, by decide⟩ ⟨by decide, by decide⟩
    (fun f hf => by cases hf) 0 0 (by decide)
    (by simp only [secondsValue, v00]; norm_num) (by decide)
  have e1 : statusLine ['0', '0'] ['0', '1'] ['0', '5'] (some ['5', '0', '0']) =
      "out_time=00:01:05.500".toList := by decide
  have e2 : statusLine ['0', '1'] ['0', '0'] ['0', '0'] none = "out_time=01:00:00".toList := by
    decide
  have q1 : ((0 : Nat) : ℚ) * 3600 + ((1 : Nat) : ℚ) * 60 +
      (((5 : Nat) : ℚ) + ((500 : Nat) : ℚ) / 10 ^ ['5', '0', '0'].length) = 131 / 2 := by
    norm_num
  have q2 : ((1 : Nat) : ℚ) * 3600 + ((0 : Nat) : ℚ) * 60 + ((0 : Nat) : ℚ) = 3600 := by
    norm_num
  rw [e1] at h1
  rw [e2] at h2
  simp only [secondsValue, v00, v01, v05, v500, q1] at h1
  simp only [secondsValue, v00, v01, q2] at h2
  exact ⟨h1, h2⟩

/-- C10, amended: a line `out_time=H:M:S`, `H` and `M` decimal numbers and
`S` a decimal number with an optional fractional part, sends exactly one
value, the float64 result of `hours*3600 + minutes*60 + seconds`, where each
field is read as the float64 nearest to the number it denotes (as 0 when that
number is beyond the range); a read holding the line and its newline sends
that value and nothing else.  When `S * 2 ^ j` is a whole number for some
`j ≤ 1074` and `(H*3600 + M*60 + S) * 2 ^ j` is below `2 ^ 53`, the value
sent is exactly `H*3600 + M*60 + S`.  In particular `out_time=00:01:05.500`
sends 65.5 and `out_time=01:00:00` sends 3600. -/
theorem C10_status_line_float64 (H M whole : List Char) (fraction : Option (List Char))
    (hH : isDecimal H) (hM : isDecimal M) (hw : isDecimal whole)
    (hf : ∀ f, fraction = some f → isDecimal f) :
    parseFFmpegProgress_line (statusLine H M whole fraction) =
      some (((scanned (decimalValue H)).mul (.fin 3600)).add
        ((scanned (decimalValue M)).mul (.fin 60)) |>.add
        (scanned (secondsValue whole fraction))) ∧
    parseFFmpegProgress [.chunk (statusLine H M whole fraction ++ ['\n']), .eof] =
      ([((scanned (decimalValue H)).mul (.fin 3600)).add
        ((scanned (decimalValue M)).mul (.fin 60)) |>.add
        (scanned (secondsValue whole fraction))], some false) ∧
    (∀ j n : Nat, j ≤ 1074 → secondsValue whole fraction * 2 ^ j = n →
      (decimalValue H * 3600 + decimalValue M * 60) * 2 ^ j + n < 2 ^ 53 →
      parseFFmpegProgress_line (statusLine H M whole fraction) =
        some (Float64.fin
          ((decimalValue H : ℚ) * 3600 + (decimalValue M : ℚ) * 60 +
            secondsValue whole fraction)) ∧
      (Float64.fin
          ((decimalValue H : ℚ) * 3600 + (decimalValue M : ℚ) * 60 +
            secondsValue whole fraction)).toRat =
        some ((decimalValue H : ℚ) * 3600 + (decimalValue M : ℚ) * 60 +
          secondsValue whole fraction)) ∧
    (parseFFmpegProgress_line "out_time=00:01:05.500".toList = some (Float64.fin (131 / 2)) ∧
      (Float64.fin (131 / 2)).toRat = some (131 / 2)) ∧
    (parseFFmpegProgress_line "out_time=01:00:00".toList = some (Float64.fin 3600) ∧
      (Float64.fin 3600).toRat = some 3600) := by
  have hf1 : ∀ f, fraction = some f → ∀ c ∈ f, c.isDigit = true := fun f h => (hf f h).2
  have hline := line_statusLine H M whole fraction hH hM hw hf1
  refine ⟨hline, ?_, ?_, statusLine_examples.1, statusLine_examples.2⟩
  · have hempty : parseFFmpegProgress_line [] = none := by
      simp [parseFFmpegProgress_line, strings.HasPrefix, outTimeKey]
    simp only [parseFFmpegProgress, parseFFmpegProgress_read]
    rw [Split_append _ _ _ (newline_not_mem_statusLine H M whole fraction hH hM hw hf1)]
    simp [strings.Split, hline, hempty]
  · intro j n hj hS hlt
    exact statusLine_exact H M whole fraction hH hM hw hf j n hj hS hlt

/-- C10, amended, at the line `out_time=00:00:01.5`: it sends 1.5, a float64
value, and so does a read that holds it. -/
theorem C10_status_line_float64_witness :
    parseFFmpegProgress_line "out_time=00:00:01.5".toList = some (Float64.fin (3 / 2)) ∧
    (Float64.fin (3 / 2)).toRat = some (3 / 2) := by
  have v00 : decimalValue ['0', '0'] = 0 := by decide
  have v01 : decimalValue ['0', '1'] = 1 := by decide
  have v5 : decimalValue ['5'] = 5 := by decide
  have h1 := (C10_status_line_float64 ['0', '0'] ['0', '0'] ['0', '1'] (some ['5'])
    ⟨by decide, by decide⟩ ⟨by decide, by decide⟩ ⟨by decide, by decide⟩
    (fun f hf => by cases hf; exact ⟨by decide, by decide⟩)).2.2.1 1 3 (by decide)
    (by simp only [secondsValue, v01, v5]; norm_num) (by decide)
  have e1 : statusLine ['0', '0'] ['0', '0'] ['0', '1'] (some ['5']) =
      "out_time=00:00:01.5".toList := by decide
  have q1 : ((0 : Nat) : ℚ) * 3600 + ((0 : Nat) : ℚ) * 60 +
      (((1 : Nat) : ℚ) + ((5 : Nat) : ℚ) / 10 ^ ['5'].length) = 3 / 2 := by
    norm_num
  rw [e1] at h1
  simp only [secondsValue, v00, v01, v5, q1] at h1
  exact h1

/-- C11 as stated fails: the bytes of `out_time=00:00:01.5` and its newline
send 1.5 when they come in one read, nothing when the read boundary falls
after `out_t`, and 0 when it falls after the second colon. -/
theorem C11_split_inside_line :
    (parseFFmpegProgress [.chunk "out_time=00:00:01.5\n".toList, .eof]).1 =
      [Float64.fin (3 / 2)] ∧
    "out_t".toList ++ "ime=00:00:01.5\n".toList = "out_time=00:00:01.5\n".toList ∧
    (parseFFmpegProgress
      [.chunk "out_t".toList, .chunk "ime=00:00:01.5\n".toList, .eof]).1 = [] ∧
    "out_time=00:00:".toList ++ "01.5\n".toList = "out_time=00:00:01.5\n".toList ∧
    (parseFFmpegProgress
      [.chunk "out_time=00:00:".toList, .chunk "01.5\n".toList, .eof]).1 = [Float64.fin 0] := by
  have hw : parseFFmpegProgress_read "out_time=00:00:01.5\n".toList = [Float64.fin (3 / 2)] := by
    have e : "out_time=00:00:01.5\n".toList = "out_time=00:00:01.5".toList ++ '\n' :: [] := by
      decide
    rw [e, read_line_cons _ _ (by decide), line_out_time_1_5, read_nil]
    rfl
  have hc : parseFFmpegProgress_read "out_time=00:00:".toList = [Float64.fin 0] := by
    simp only [parseFFmpegProgress_read, Split_no_sep "out_time=00:00:".toList '\n' (by decide),
      List.filterMap_cons, line_out_time_cut, List.filterMap_nil]
  have hr : parseFFmpegProgress_read "01.5\n".toList = [] := by decide
  refine ⟨?_, by decide, by decide, by decide, ?_⟩
  · simp only [parseFFmpegProgress, hw, List.append_nil]
  · simp only [parseFFmpegProgress, hc, hr, List.append_nil]

/-- C11, amended: when no read boundary falls inside a line, that is when
every read but the last is empty or ends with a newline, the values sent are
those of the lines of the whole stream, in stream order: one value for each
line that has the prefix `out_time=` and three fields, none for the other
lines; then completion is reported. -/
theorem C11_reads_of_whole_lines (chunks : List (List Char)) (last : List Char)
    (h : ∀ c ∈ chunks, c = [] ∨ c.getLast? = some '\n') :
    parseFFmpegProgress ((chunks ++ [last]).map StatusRead.chunk ++ [.eof]) =
      ((strings.Split (chunks.flatten ++ last) '\n').filterMap parseFFmpegProgress_line,
        some false) := by
  induction chunks with
  | nil => simp [parseFFmpegProgress, parseFFmpegProgress_read]
  | cons c cs ih =>
    have hc := h c (List.mem_cons_self _ _)
    have ih' := ih (fun d hd => h d (List.mem_cons_of_mem _ hd))
    have e : (c :: cs ++ [last]).map StatusRead.chunk ++ [StatusRead.eof] =
        StatusRead.chunk c :: ((cs ++ [last]).map StatusRead.chunk ++ [StatusRead.eof]) := rfl
    have hr := read_whole_lines c (cs.flatten ++ last) hc
    simp only [parseFFmpegProgress_read] at hr
    rw [e, parse_chunk, ih', List.flatten_cons, List.append_assoc, hr]
    rfl

/-- C11, amended, at a concrete stream: three reads of whole lines. -/
theorem C11_reads_of_whole_lines_witness :
    parseFFmpegProgress
        ((["frame=1\n".toList, "out_time=00:00:01.5\nspeed=1x\n".toList] ++
          ["progress=end\n".toList]).map StatusRead.chunk ++ [.eof]) =
      ((strings.Split
          (["frame=1\n".toList, "out_time=00:00:01.5\nspeed=1x\n".toList].flatten ++
            "progress=end\n".toList) '\n').filterMap parseFFmpegProgress_line,
        some false) :=
  C11_reads_of_whole_lines _ _ (by decide)

/-- C12 as stated fails: the line `out_time=a:b:c` has the prefix and three
fields none of which is a number, and it sends the value 0. -/
theorem C12_three_fields_not_numbers :
    fmt.Sscanf_f ['a'] = none ∧ fmt.Sscanf_f ['b'] = none ∧ fmt.Sscanf_f ['c'] = none ∧
    parseFFmpegProgress_line "out_time=a:b:c".toList = some (Float64.fin 0) ∧
    parseFFmpegProgress_read "out_time=a:b:c\n".toList = [Float64.fin 0] := by
  have ha : fmt.Sscanf_f ['a'] = none := by decide
  have hb : fmt.Sscanf_f ['b'] = none := by decide
  have hc : fmt.Sscanf_f ['c'] = none := by decide
  have hl : parseFFmpegProgress_line "out_time=a:b:c".toList = some (Float64.fin 0) := by
    rw [line_three_fields "out_time=a:b:c".toList ['a'] ['b'] ['c'] (by decide) (by decide),
      ha, hb, hc]
    decide
  refine ⟨ha, hb, hc, hl, ?_⟩
  have e : "out_time=a:b:c\n".toList = "out_time=a:b:c".toList ++ '\n' :: [] := by decide
  rw [e, read_line_cons _ _ (by decide), hl, read_nil]
  rfl

/-- C12, amended: a line without the prefix `out_time=`, or with the prefix
and a number of colon-separated fields other than three, sends no value; a
line with the prefix and three fields sends one value whatever the fields
are, a field that does not scan as a number counting as 0; and in every case
the lines that follow it in the read are parsed. -/
theorem C12_malformed_lines (line rest : List Char) (hnl : '\n' ∉ line) :
    parseFFmpegProgress_read (line ++ '\n' :: rest) =
      (parseFFmpegProgress_line line).toList ++ parseFFmpegProgress_read rest ∧
    (strings.HasPrefix line outTimeKey = false → parseFFmpegProgress_line line = none) ∧
    (strings.HasPrefix line outTimeKey = true →
      (strings.Split (strings.TrimPrefix line outTimeKey) ':').length ≠ 3 →
      parseFFmpegProgress_line line = none) ∧
    (∀ a b c, strings.HasPrefix line outTimeKey = true →
      strings.Split (strings.TrimPrefix line outTimeKey) ':' = [a, b, c] →
      parseFFmpegProgress_line line =
        some ((((fmt.Sscanf_f a).getD Float64.zero).mul (.fin 3600)).add
          (((fmt.Sscanf_f b).getD Float64.zero).mul (.fin 60)) |>.add
          ((fmt.Sscanf_f c).getD Float64.zero))) := by
  refine ⟨read_line_cons line rest hnl, ?_, ?_, ?_⟩
  · intro hp
    simp [parseFFmpegProgress_line, hp]
  · intro hp hlen
    simp [parseFFmpegProgress_line, hp, hlen]
  · intro a b c hp hs
    exact line_three_fields line a b c hp hs

/-- C12, amended, at the lines of the specification: `garbage` and
`out_time=N/A` send nothing and the line after them is parsed. -/
theorem C12_malformed_lines_witness :
    parseFFmpegProgress_read ("garbage".toList ++ '\n' :: "out_time=N/A\n".toList) =
      (parseFFmpegProgress_line "garbage".toList).toList ++
        parseFFmpegProgress_read "out_time=N/A\n".toList ∧
    parseFFmpegProgress_line "garbage".toList = none ∧
    parseFFmpegProgress_line "out_time=N/A".toList = none :=
  ⟨(C12_malformed_lines "garbage".toList "out_time=N/A\n".toList (by decide)).1,
    (C12_malformed_lines "garbage".toList "out_time=N/A\n".toList (by decide)).2.1 (by decide),
    by decide⟩

/-- C13 at the failing inputs.  After a read that fails with an error other
than the end of the stream the loop of `playSong` goes on: the next turn
reads again, and the block it gets is encoded and sent to the sink.  After a
block the codec rejects it goes on too: the next block is read, encoded and
sent.  The loop ends only when completion is reported on `doneChan`. -/
theorem C13_loop_goes_on_after_error :
    (∃ t, playSong poppedA songA sessionReadErrorOnly = .returned (t, none) ∧
      t.reads = 1 ∧ t.encoded = [] ∧
      t.bot.VoiceConn = some { speaking := false, OpusSend := [] }) ∧
    (∃ t, playSong poppedA songA sessionReadError = .returned (t, none) ∧
      t.reads = 2 ∧ t.encoded = [[1, 2, 3, 4]] ∧
      t.bot.VoiceConn =
        some { speaking := false, OpusSend := [OpusEncoder.pcmData [1, 2, 3, 4]] }) ∧
    (∃ t, playSong poppedA songA sessionEncodeError = .returned (t, none) ∧
      t.reads = 2 ∧ t.encoded = [[1, 2, 3, 4], [5, 6, 7, 8]] ∧
      t.bot.VoiceConn =
        some { speaking := false, OpusSend := [OpusEncoder.pcmData [5, 6, 7, 8]] }) ∧
    playSong poppedA songA
      { spawn := .started, encoderOk := true, events := [.poll .failed true] } = .blocked := by
  refine ⟨⟨_, rfl, rfl, rfl, rfl⟩, ⟨_, rfl, rfl, rfl, rfl⟩, ⟨_, rfl, rfl, rfl, rfl⟩, rfl⟩

/-- C14: for every byte slice `pcm`, of any length and with any byte values,
the conversion loop of `OpusEncoder.Encode` indexes nothing out of range (it
does not panic) and produces `len(pcm)/2` samples, sample `i` being the
signed 16-bit value of the little-endian pair `pcm[2i] + 256*pcm[2i+1]`; a
trailing odd byte changes nothing. -/
theorem C14_pcm_conversion (pcm : List Nat) :
    ∃ samples : List Int,
      OpusEncoder.Encode_pcmData pcm = some samples ∧
      samples.length = pcm.length / 2 ∧
      (∀ i, i < pcm.length / 2 →
        samples[i]? =
          some (signed16 (pcm.getD (2 * i) 0 % 256 + 256 * (pcm.getD (2 * i + 1) 0 % 256)))) ∧
      (∀ b : Nat, pcm.length % 2 = 0 →
        OpusEncoder.Encode_pcmData (pcm ++ [b]) = some samples) ∧
      samples = OpusEncoder.pcmData pcm := by
  have hrange : ∀ n, List.range' 0 n = List.range n := fun n => (List.range_eq_range' n).symm
  have hrun : OpusEncoder.Encode_pcmData pcm =
      some ((List.range (pcm.length / 2)).map (sampleAt pcm)) := by
    unfold OpusEncoder.Encode_pcmData
    rw [Encode_loop_eq pcm (pcm.length / 2) 0 (by omega), hrange]
  refine ⟨_, hrun, by simp, ?_, ?_, (pcmData_eq pcm).symm⟩
  · intro i hi
    rw [List.getElem?_map, List.getElem?_range hi]
    rfl
  · intro b heven
    have hlen : (pcm ++ [b]).length / 2 = pcm.length / 2 := by
      rw [List.length_append, List.length_singleton]; omega
    unfold OpusEncoder.Encode_pcmData
    rw [Encode_loop_eq (pcm ++ [b]) _ 0 (by rw [List.length_append, List.length_singleton]; omega),
      hrange, hlen]
    congr 1
    apply List.map_congr_left
    intro i hi
    have hi' : i < pcm.length / 2 := List.mem_range.mp hi
    unfold sampleAt
    rw [List.getD_append _ _ _ _ (by omega), List.getD_append _ _ _ _ (by omega)]

/-- C15 as stated fails at 360000 seconds: the result is "100:00:00", whose
hours field has three digits, not the two-digit fields `HH:MM:SS`. -/
theorem C15_hundred_hours :
    formatDuration 360000 = "100:00:00" ∧
    formatDuration 360000 ≠
      String.mk (twoDigits (360000 / 3600) ++
        ':' :: (twoDigits (360000 % 3600 / 60) ++ ':' :: twoDigits (360000 % 60))) ∧
    (formatDuration 360000).length ≠ "HH:MM:SS".length := by
  decide

/-- C15, amended: `formatDuration` prints minutes and seconds as two-digit
fields, `MM:SS` with `MM = n/60` and `SS = n%60` below one hour; from one
hour on it prints `HH:MM:SS` with `HH = n/3600`, `MM = (n%3600)/60` and
`SS = n%60`, the hours field being the two digits of `n/3600` below 100 hours
and, from 100 hours on, the decimal digits of `n/3600`, three or more.  65
gives "01:05", 3725 gives "01:02:05", 0 gives "00:00" and 360000 gives
"100:00:00". -/
theorem C15_formatDuration_fields (n : Nat) :
    (n < 3600 →
      formatDuration (n : Int) = String.mk (twoDigits (n / 60) ++ ':' :: twoDigits (n % 60))) ∧
    (3600 ≤ n → n < 360000 →
      formatDuration (n : Int) =
        String.mk (twoDigits (n / 3600) ++
          ':' :: (twoDigits (n % 3600 / 60) ++ ':' :: twoDigits (n % 60)))) ∧
    (360000 ≤ n →
      formatDuration (n : Int) =
        String.mk (decimalDigits (n / 3600) ++
          ':' :: (twoDigits (n % 3600 / 60) ++ ':' :: twoDigits (n % 60))) ∧
      3 ≤ (decimalDigits (n / 3600)).length) ∧
    formatDuration 65 = "01:05" ∧ formatDuration 3725 = "01:02:05" ∧
    formatDuration 0 = "00:00" ∧ formatDuration 360000 = "100:00:00" := by
  have hm : fmt.Sprintf_02d ((n % 3600 / 60 : Nat) : Int) = twoDigits (n % 3600 / 60) :=
    Sprintf_02d_small _ (by omega)
  have hs : fmt.Sprintf_02d ((n % 60 : Nat) : Int) = twoDigits (n % 60) :=
    Sprintf_02d_small _ (by omega)
  refine ⟨?_, ?_, ?_, by decide, by decide, by decide, by decide⟩
  · intro h
    have h0 : ¬ 0 < n / 3600 := by omega
    have hmin : n % 3600 / 60 = n / 60 := by omega
    rw [formatDuration_nat, if_neg h0, hm, hs, hmin]
  · intro h1 h2
    have h0 : 0 < n / 3600 := by omega
    rw [formatDuration_nat, if_pos h0, hm, hs, Sprintf_02d_small _ (by omega)]
  · intro h
    have h0 : 0 < n / 3600 := by omega
    obtain ⟨he, hl⟩ := Sprintf_02d_large (n / 3600) (by omega)
    have hd := fmtDecimal_digits (n / 3600) (n / 3600) [] (le_refl _) h0
    rw [List.append_nil] at hd
    rw [hd] at he hl
    exact ⟨by rw [formatDuration_nat, if_pos h0, hm, hs, he], hl⟩

set_option maxRecDepth 8000 in
/-- C16 at the failing input: a read that returns 1000 bytes.  The loop of
`playSong` hands `rawBuf[:n]`, these 1000 bytes, to `Encode`: a block of 250
sample-frames, not of 960. -/
theorem C16_short_read_is_encoded :
    ∃ t, playSong poppedA songA sessionShortRead = .returned (t, none) ∧
      t.encoded = [List.replicate 1000 0] ∧
      ∀ b ∈ t.encoded, b.length = 1000 ∧ b.length ≠ 960 * 2 * 2 := by
  refine ⟨_, rfl, rfl, ?_⟩
  intro b hb
  have h : b = List.replicate 1000 0 := by
    have hb' : b ∈ [List.replicate 1000 (0 : Nat)] := hb
    simpa using hb'
  subst h
  simp

/-- C17: in every state reachable from `NewMusicBot` by requests (enqueue,
pause, resume, skip, restart, stop), progress updates and steps of the
controller loop, the accumulated play-time baseline is 0; so the start offset
`playSong` computes is exactly the position, and it is 0 only when the
position is 0. -/
theorem C17_baseline_zero (s : System) (h : Reachable s) :
    s.bot.PauseState.TotalPlayTime = Float64.zero ∧
    playSong_startPos s.bot.PauseState = s.bot.PauseState.Pos ∧
    (playSong_startPos s.bot.PauseState = Float64.zero → s.bot.PauseState.Pos = Float64.zero) := by
  have hb : baselineZero s := by
    unfold Reachable at h
    induction h with
    | refl => rfl
    | tail _ hstep ih => exact step_baseline _ _ hstep ih
  have hs := startPos_of_baselineZero s.bot.PauseState hb
  exact ⟨hb, hs, fun h0 => by rw [← hs]; exact h0⟩

/-- C17 at a concrete reachable state: after `/play A` and a progress value
of 120 the baseline is 0 and the start offset `playSong` would compute is the
position, 120. -/
theorem C17_baseline_zero_witness :
    playSong_startPos
        ({ handlePlayCommandSlash System.init (.ok voice0 songA) with
          bot.PauseState.Pos := Float64.fin 120 } : System).bot.PauseState =
      Float64.fin 120 :=
  (C17_baseline_zero _
    (Relation.ReflTransGen.tail
      (Relation.ReflTransGen.single
        (Step.request (.play (.ok voice0 songA)) System.init _ rfl))
      (Step.progress _ (Float64.fin 120)))).2.1

end musicbot
